import Mathlib

/-
Verification development for the document-analysis core of the CodeForge
editor (src/code_editor.py): syntax-highlight engine, bracket matcher and
minimap renderer.  The Python code is shallowly embedded: text is a list of
codepoints, each regular-expression rule of the source is embedded as a
deterministic scanner with the exact matching semantics of the pattern the
source compiles (Python `re`, leftmost scan, lazy/greedy backtracking
resolved by hand for each concrete pattern), and `re.finditer` is a fueled
left-to-right driver.  Word and space character classes are the ASCII
fragment of Python's `\w` / `\s` / `\d`.
-/

namespace CodeForge

abbrev Text := List Char

/-- ASCII fragment of Python's regex word class `\w`. -/
def isWordChar (c : Char) : Bool := c.isAlphanum || c == '_'

/-- ASCII fragment of Python's whitespace class `\s` (and of `str.strip`). -/
def isPySpace (c : Char) : Bool :=
  c == ' ' || c == '\t' || c == '\n' || c == '\r' || c == '\x0b' || c == '\x0c'

/-- Character of `t` at offset `i`, as the regex engine sees it. -/
def wordAt (t : Text) (i : Nat) : Bool :=
  match t[i]? with
  | some c => isWordChar c
  | none => false

/-- Python regex `\b` at position `i` of `t`: exactly one neighbour is a word
character (positions outside the text count as non-word). -/
def boundaryAt (t : Text) (i : Nat) : Bool :=
  (if i = 0 then false else wordAt t (i - 1)) != wordAt t i

/-- Literal `s` occurs in `t` starting at offset `i`. -/
def hasPrefixAt (t : Text) (i : Nat) (s : List Char) : Bool :=
  s.isPrefixOf (t.drop i)

/-- End of the maximal run of characters satisfying `p` starting at `i`
(fueled structural recursion; fuel `t.length + 1` always suffices). -/
def runEndA (p : Char → Bool) (t : Text) : Nat → Nat → Nat
  | 0, i => i
  | fuel + 1, i =>
    match t[i]? with
    | some c => if p c then runEndA p t fuel (i + 1) else i
    | none => i

def runEnd (p : Char → Bool) (t : Text) (i : Nat) : Nat :=
  runEndA p t (t.length + 1) i

/- ---------------------------------------------------------------------
Bracket matcher (source: highlight_matching_bracket / find_matching_bracket,
code_editor.py lines 814-858).
--------------------------------------------------------------------- -/

/-- Source: `self.matching_pairs = {'(': ')', '[': ']', '{': '}', '<': '>'}`. -/
def matchingPairsL : List (Char × Char) :=
  [('(', ')'), ('[', ']'), ('\x7b', '\x7d'), ('<', '>')]

/-- Source: `self.closing_pairs = {v: k for k, v in self.matching_pairs.items()}`. -/
def closingPairsL : List (Char × Char) :=
  matchingPairsL.map (fun p => (p.2, p.1))

/-- The scanning loop of `find_matching_bracket`: Python
`while 0 <= i < len(content)` with `count` updated on `open_char` /
`close_char` occurrences and a match reported at the first `i` with
`count == 0 and i != start_index`.  The index is an `Int` exactly as in the
source (stepping by `direction` may leave `[0, len)` on either side). -/
def bracketScanA (t : Text) (startIdx : Int) (oc cc : Char) (d : Int) :
    Nat → Int → Int → Option Nat
  | 0, _, _ => none
  | fuel + 1, i, cnt =>
    if h : 0 ≤ i ∧ i < (t.length : Int) then
      let c := t.get ⟨i.toNat, by omega⟩
      let cnt' := if c = oc then cnt + 1 else if c = cc then cnt - 1 else cnt
      if cnt' = 0 ∧ i ≠ startIdx then some i.toNat
      else bracketScanA t startIdx oc cc d fuel (i + d) cnt'
    else none

/-- Source: `find_matching_bracket(start_pos, open_char, close_char, direction)`.
Returns the offset of the reported counterpart, if any. -/
def find_matching_bracket (t : Text) (startIdx : Nat) (oc cc : Char) (d : Int) :
    Option Nat :=
  bracketScanA t startIdx oc cc d (t.length + 1) startIdx 0

/-- One anchor of `highlight_matching_bracket`: if the character is a
registered opener, scan forward; else if a registered closer, scan backward;
else nothing. -/
def anchorScan (t : Text) (idx : Nat) (c : Char) : Option (Nat × Nat) :=
  match List.lookup c matchingPairsL with
  | some cl => (find_matching_bracket t idx c cl 1).map (fun j => (idx, j))
  | none =>
    match List.lookup c closingPairsL with
    | some op => (find_matching_bracket t idx c op (-1)).map (fun j => (idx, j))
    | none => none

/-- Source: `highlight_matching_bracket` — checks the character before and
after the cursor independently; each anchor may report a (anchor, match)
pair of offsets. -/
def highlight_matching_bracket (t : Text) (cursor : Nat) :
    Option (Nat × Nat) × Option (Nat × Nat) :=
  let bef :=
    if cursor = 0 then none
    else
      match t[cursor - 1]? with
      | some c => anchorScan t (cursor - 1) c
      | none => none
  let aft :=
    match t[cursor]? with
    | some c => anchorScan t cursor c
    | none => none
  (bef, aft)

/- ---------------------------------------------------------------------
Highlight engine (source: highlight_syntax / get_compiled_regex /
highlight_python / highlight_javascript / highlight_c_like / highlight_html,
code_editor.py lines 1245-1408).  Each regex rule of the source is embedded
as a deterministic matcher `Text → Nat → Option (Nat × Nat)` returning the
emitted span `(start, end)` of a match attempt at a position; `re.finditer`
is the driver `reMatches` below (on success the scan resumes at the end of
the full match, which for every rule of the source coincides with the end
of the emitted span).
--------------------------------------------------------------------- -/

abbrev Matcher := Text → Nat → Option (Nat × Nat)

/-- Lazy `.*?` search for the literal continuation `sub` starting at `i`:
at each position the continuation is tried first, then one character is
consumed by `.` (which, without DOTALL, refuses a newline).  Embeds the
lazy parts of `'""".*?"""'`, `'/\*.*?\*/'`, `'<!--.*?-->'` and `` '`.*?`' ``. -/
def lazyFindSubA (dotAll : Bool) (t : Text) (sub : List Char) :
    Nat → Nat → Option Nat
  | 0, _ => none
  | fuel + 1, i =>
    if hasPrefixAt t i sub then some i
    else
      match t[i]? with
      | some c => if dotAll || c != '\n' then lazyFindSubA dotAll t sub fuel (i + 1) else none
      | none => none

def lazyFindSub (dotAll : Bool) (t : Text) (sub : List Char) (i : Nat) : Option Nat :=
  lazyFindSubA dotAll t sub (t.length + 1) i

/-- Body-and-close scan of a quoted string rule `q(?:[^q\\]|\\.)*q` starting
just after the opening quote: a negated class character (anything but the
quote and the backslash, newline included), or a backslash followed by `.`
(which, without DOTALL, may not be a newline), repeated until the closing
quote.  Returns the offset one past the closing quote. -/
def escStringEndA (dotAll : Bool) (q : Char) (t : Text) : Nat → Nat → Option Nat
  | 0, _ => none
  | fuel + 1, i =>
    match t[i]? with
    | none => none
    | some c =>
      if c = q then some (i + 1)
      else if c = '\\' then
        match t[i + 1]? with
        | none => none
        | some d =>
          if dotAll || d != '\n' then escStringEndA dotAll q t fuel (i + 2) else none
      else escStringEndA dotAll q t fuel (i + 1)

def escStringEnd (dotAll : Bool) (q : Char) (t : Text) (i : Nat) : Option Nat :=
  escStringEndA dotAll q t (t.length + 1) i

/-- Lazy scan for `$` of a line-comment rule compiled without MULTILINE:
`$` holds only at the end of the text or just before a final newline, and
`.` cannot cross a newline on the way there. -/
def dollarScanA (t : Text) : Nat → Nat → Option Nat
  | 0, _ => none
  | fuel + 1, i =>
    if i = t.length then some i
    else if i + 1 = t.length && t[i]? == some '\n' then some i
    else
      match t[i]? with
      | some c => if c != '\n' then dollarScanA t fuel (i + 1) else none
      | none => none

def dollarScan (t : Text) (i : Nat) : Option Nat :=
  dollarScanA t (t.length + 1) i

/-- Keyword / builtin rule `\b(w1|w2|...)\b`: at a match position the first
alternative that occurs there and is followed by a word boundary wins (at
most one can, since all alternative words consist of word characters). -/
def kwMatchAt (kws : List (List Char)) : Matcher := fun t p =>
  if boundaryAt t p then
    match kws.find? (fun w => hasPrefixAt t p w && boundaryAt t (p + w.length)) with
    | some w => some (p, p + w.length)
    | none => none
  else none

/-- Python string rule
`'(""".*?"""|\'\'\'.*?\'\'\'|"(?:[^"\\]|\\.)*"|\'(?:[^\'\\]|\\.)*\')'`
compiled with DOTALL.  When a triple quote opens but never closes, the
third alternative still matches the empty string between the first two
quote characters. -/
def pyStringMatchAt : Matcher := fun t p =>
  if hasPrefixAt t p ['"', '"', '"'] then
    match lazyFindSub true t ['"', '"', '"'] (p + 3) with
    | some q => some (p, q + 3)
    | none => some (p, p + 2)
  else if hasPrefixAt t p ['\'', '\'', '\''] then
    match lazyFindSub true t ['\'', '\'', '\''] (p + 3) with
    | some q => some (p, q + 3)
    | none => some (p, p + 2)
  else if t[p]? == some '"' then
    (escStringEnd true '"' t (p + 1)).map (fun e => (p, e))
  else if t[p]? == some '\'' then
    (escStringEnd true '\'' t (p + 1)).map (fun e => (p, e))
  else none

/-- Line-comment rule `marker.*?$` (no MULTILINE, no DOTALL). -/
def lineCommentMatchAt (marker : List Char) : Matcher := fun t p =>
  if hasPrefixAt t p marker then
    (dollarScan t (p + marker.length)).map (fun e => (p, e))
  else none

/-- Block construct `opn.*?cls` (lazy, optionally DOTALL). -/
def blockMatchAt (dotAll : Bool) (opn cls : List Char) : Matcher := fun t p =>
  if hasPrefixAt t p opn then
    (lazyFindSub dotAll t cls (p + opn.length)).map (fun q => (p, q + cls.length))
  else none

/-- Combined comment rule `'//.*?$|/\*.*?\*/'` of the js/ts and c-like
profiles: the line alternative is tried first; both are compiled without
MULTILINE / DOTALL. -/
def jsCommentMatchAt : Matcher := fun t p =>
  match lineCommentMatchAt ['/', '/'] t p with
  | some r => some r
  | none => blockMatchAt false ['/', '*'] ['*', '/'] t p

/-- Numeric rule `\b\d+\.?\d*\b` with its backtracking resolved: after the
integer digits, a dot is taken if present; then the trailing boundary is
sought after the maximal fractional run, after zero fractional digits, and
finally with the dot given back (in that backtracking order). -/
def numberMatchAt : Matcher := fun t p =>
  if boundaryAt t p && (t[p]?.elim false Char.isDigit) then
    let q := runEnd Char.isDigit t (p + 1)
    if t[q]? == some '.' then
      let r := runEnd Char.isDigit t (q + 1)
      if boundaryAt t r then some (p, r)
      else if boundaryAt t (q + 1) then some (p, q + 1)
      else some (p, q)
    else if boundaryAt t q then some (p, q) else none
  else none

/-- Definition-name rule `\bkw\s+(\w+)`: the emitted span is capture group 1
(the name after the introducer keyword); the full match also ends there. -/
def defNameMatchAt (kw : List Char) : Matcher := fun t p =>
  if boundaryAt t p && hasPrefixAt t p kw then
    let i := p + kw.length
    let j := runEnd isPySpace t i
    if i < j then
      let k := runEnd isWordChar t j
      if j < k then some (j, k) else none
    else none
  else none

/-- First occurrence of character `c` at offset `≥ i` (the `[^c]*c` tail of
the html tag and attribute-string rules). -/
def findCharFrom (t : Text) (c : Char) (i : Nat) : Option Nat :=
  let r := runEnd (fun d => d != c) t i
  if t[r]? == some c then some r else none

/-- Html tag rule `</?[\w\-]+[^>]*>`. -/
def htmlTagMatchAt : Matcher := fun t p =>
  if t[p]? == some '<' then
    let i := if t[p + 1]? == some '/' then p + 2 else p + 1
    let j := runEnd (fun c => isWordChar c || c == '-') t i
    if i < j then
      (findCharFrom t '>' j).map (fun g => (p, g + 1))
    else none
  else none

/-- Html attribute-string rule `'"[^"]*"|\'[^\']*\''`. -/
def htmlStringMatchAt : Matcher := fun t p =>
  if t[p]? == some '"' then
    (findCharFrom t '"' (p + 1)).map (fun g => (p, g + 1))
  else if t[p]? == some '\'' then
    (findCharFrom t '\'' (p + 1)).map (fun g => (p, g + 1))
  else none

/-- Js/ts string rule `` '(`.*?`|"(?:[^"\\]|\\.)*"|\'(?:[^\'\\]|\\.)*\')' ``
compiled without DOTALL: the backtick alternative cannot cross a newline. -/
def jsStringMatchAt : Matcher := fun t p =>
  if t[p]? == some (Char.ofNat 96) then
    (lazyFindSub false t [Char.ofNat 96] (p + 1)).map (fun q => (p, q + 1))
  else if t[p]? == some '"' then
    (escStringEnd false '"' t (p + 1)).map (fun e => (p, e))
  else if t[p]? == some '\'' then
    (escStringEnd false '\'' t (p + 1)).map (fun e => (p, e))
  else none

/-- C-like string rule `'"(?:[^"\\]|\\.)*"'`. -/
def cStringMatchAt : Matcher := fun t p =>
  if t[p]? == some '"' then
    (escStringEnd false '"' t (p + 1)).map (fun e => (p, e))
  else none

/-- The `re.finditer` driver: leftmost scan; on a match the span is emitted
and the scan resumes at its end, otherwise the position advances by one.
Every rule of the source matches at least one character, so fuel
`t.length + 1` always suffices. -/
def findIterAux (m : Matcher) (t : Text) : Nat → Nat → List (Nat × Nat)
  | 0, _ => []
  | fuel + 1, p =>
    if p < t.length then
      match m t p with
      | some (s, e) => (s, e) :: findIterAux m t fuel e
      | none => findIterAux m t fuel (p + 1)
    else []

def reMatches (m : Matcher) (t : Text) : List (Nat × Nat) :=
  findIterAux m t (t.length + 1) 0

/-- Span kinds are the eight syntax tags configured by
`setup_syntax_highlighting` (code_editor.py lines 235-248). -/
inductive SpanKind where
  | keyword | string | comment | function | number | cls | operator | builtin
deriving DecidableEq, Repr

structure Span where
  kind : SpanKind
  s : Nat
  e : Nat
deriving DecidableEq, Repr

def spansOf (k : SpanKind) (m : Matcher) (t : Text) : List Span :=
  (reMatches m t).map (fun r => ⟨k, r.1, r.2⟩)

def strToL (s : String) : List Char := s.toList

def pyKeywords : List (List Char) :=
  (["def", "class", "if", "elif", "else", "for", "while", "try", "except",
    "finally", "with", "as", "import", "from", "return", "yield", "break",
    "continue", "pass", "raise", "assert", "lambda", "and", "or", "not",
    "in", "is", "True", "False", "None", "async", "await"]).map strToL

def pyBuiltins : List (List Char) :=
  (["print", "len", "range", "str", "int", "float", "list", "dict", "set",
    "tuple", "open", "input", "isinstance", "type", "enumerate", "zip",
    "map", "filter", "sum", "min", "max", "sorted", "abs", "all", "any",
    "bool", "bytes", "chr", "ord", "dir", "eval", "exec", "format", "hash",
    "help", "hex", "id", "iter", "next", "object", "oct", "pow", "repr",
    "reversed", "round", "slice", "super", "vars"]).map strToL

def jsKeywords : List (List Char) :=
  (["function", "const", "let", "var", "if", "else", "for", "while", "do",
    "switch", "case", "break", "continue", "return", "try", "catch",
    "finally", "throw", "new", "this", "class", "extends", "import",
    "export", "from", "default", "async", "await", "yield", "typeof",
    "instanceof", "delete", "void", "in", "of"]).map strToL

def cKeywords : List (List Char) :=
  (["if", "else", "for", "while", "do", "switch", "case", "break",
    "continue", "return", "class", "struct", "enum", "public", "private",
    "protected", "static", "void", "int", "float", "double", "char", "bool",
    "long", "short", "unsigned", "signed", "const", "new", "delete", "try",
    "catch", "throw", "virtual", "override", "namespace", "using",
    "include"]).map strToL

/-- Source: `highlight_python` — rules in tag-application order. -/
def highlight_python (t : Text) : List Span :=
  spansOf .keyword (kwMatchAt pyKeywords) t ++
  spansOf .builtin (kwMatchAt pyBuiltins) t ++
  spansOf .string pyStringMatchAt t ++
  spansOf .comment (lineCommentMatchAt ['#']) t ++
  spansOf .number numberMatchAt t ++
  spansOf .function (defNameMatchAt (strToL "def")) t ++
  spansOf .cls (defNameMatchAt (strToL "class")) t

/-- Source: `highlight_javascript`. -/
def highlight_javascript (t : Text) : List Span :=
  spansOf .keyword (kwMatchAt jsKeywords) t ++
  spansOf .string jsStringMatchAt t ++
  spansOf .comment jsCommentMatchAt t ++
  spansOf .number numberMatchAt t

/-- Source: `highlight_c_like`. -/
def highlight_c_like (t : Text) : List Span :=
  spansOf .keyword (kwMatchAt cKeywords) t ++
  spansOf .string cStringMatchAt t ++
  spansOf .comment jsCommentMatchAt t ++
  spansOf .number numberMatchAt t

/-- Source: `highlight_html` (tags are painted with the `keyword` tag). -/
def highlight_html (t : Text) : List Span :=
  spansOf .keyword htmlTagMatchAt t ++
  spansOf .comment (blockMatchAt true (strToL "<!--") (strToL "-->")) t ++
  spansOf .string htmlStringMatchAt t

/-- Extension dispatch of `highlight_syntax` (code_editor.py lines 1259-1266):
unknown extensions produce no spans. -/
def highlightSpans (ext : String) (t : Text) : List Span :=
  if ext = "py" then highlight_python t
  else if ext ∈ ["js", "ts", "jsx", "tsx"] then highlight_javascript t
  else if ext ∈ ["java", "c", "cpp", "cs", "h"] then highlight_c_like t
  else if ext = "html" then highlight_html t
  else []

/-- The eight tags removed by `highlight_syntax` before re-highlighting
(code_editor.py line 1254). -/
def allSyntaxTags : List SpanKind :=
  [.keyword, .string, .comment, .function, .number, .cls, .builtin, .operator]

/-- Source: `highlight_syntax` acting on the tag state: all previously
applied syntax tags are removed, then the detected profile's spans are
applied. -/
def highlightSyntaxTags (old : List Span) (ext : String) (t : Text) : List Span :=
  (old.filter (fun sp => !(allSyntaxTags.contains sp.kind))) ++ highlightSpans ext t

/- ---------------------------------------------------------------------
Regex compilation cache (source: get_compiled_regex, code_editor.py lines
1268-1272).  A compiled pattern is modelled by its matcher; the cache is an
association list keyed by the string key of the source. -/

abbrev Cache := List (String × Matcher)

/-- Source: `get_compiled_regex(pattern, key)` — compile (here: take the
matcher) only when the key is absent, else reuse the cached entry. -/
def get_compiled_regex (cache : Cache) (pat : Matcher) (key : String) :
    Matcher × Cache :=
  match cache.lookup key with
  | some m => (m, cache)
  | none => (pat, (key, pat) :: cache)

/-- The fixed `(key, pattern)` table of the source: every call of
`get_compiled_regex` in the four highlighters uses one of these pairs. -/
def tableFor (key : String) : Option Matcher :=
  if key = "py_keywords" then some (kwMatchAt pyKeywords)
  else if key = "py_builtins" then some (kwMatchAt pyBuiltins)
  else if key = "py_comments" then some (lineCommentMatchAt ['#'])
  else if key = "py_numbers" then some numberMatchAt
  else if key = "py_functions" then some (defNameMatchAt (strToL "def"))
  else if key = "py_classes" then some (defNameMatchAt (strToL "class"))
  else if key = "js_keywords" then some (kwMatchAt jsKeywords)
  else if key = "js_strings" then some jsStringMatchAt
  else if key = "js_comments" then some jsCommentMatchAt
  else if key = "js_numbers" then some numberMatchAt
  else if key = "c_keywords" then some (kwMatchAt cKeywords)
  else if key = "c_strings" then some cStringMatchAt
  else if key = "c_comments" then some jsCommentMatchAt
  else if key = "c_numbers" then some numberMatchAt
  else if key = "html_tags" then some htmlTagMatchAt
  else none

/-- Cache states reachable in the program: every stored entry is the
pattern the source compiles under that key. -/
def cacheOK (c : Cache) : Prop :=
  ∀ key m, c.lookup key = some m → tableFor key = some m

/-- `highlight_python` with the explicit cache threading of the source
(keys in call order; the string rule is not cached in the source). -/
def highlight_python_c (c0 : Cache) (t : Text) : List Span × Cache :=
  let r1 := get_compiled_regex c0 (kwMatchAt pyKeywords) "py_keywords"
  let r2 := get_compiled_regex r1.2 (kwMatchAt pyBuiltins) "py_builtins"
  let r3 := get_compiled_regex r2.2 (lineCommentMatchAt ['#']) "py_comments"
  let r4 := get_compiled_regex r3.2 numberMatchAt "py_numbers"
  let r5 := get_compiled_regex r4.2 (defNameMatchAt (strToL "def")) "py_functions"
  let r6 := get_compiled_regex r5.2 (defNameMatchAt (strToL "class")) "py_classes"
  (spansOf .keyword r1.1 t ++ spansOf .builtin r2.1 t ++
   spansOf .string pyStringMatchAt t ++ spansOf .comment r3.1 t ++
   spansOf .number r4.1 t ++ spansOf .function r5.1 t ++
   spansOf .cls r6.1 t, r6.2)

def highlight_javascript_c (c0 : Cache) (t : Text) : List Span × Cache :=
  let r1 := get_compiled_regex c0 (kwMatchAt jsKeywords) "js_keywords"
  let r2 := get_compiled_regex r1.2 jsStringMatchAt "js_strings"
  let r3 := get_compiled_regex r2.2 jsCommentMatchAt "js_comments"
  let r4 := get_compiled_regex r3.2 numberMatchAt "js_numbers"
  (spansOf .keyword r1.1 t ++ spansOf .string r2.1 t ++
   spansOf .comment r3.1 t ++ spansOf .number r4.1 t, r4.2)

def highlight_c_like_c (c0 : Cache) (t : Text) : List Span × Cache :=
  let r1 := get_compiled_regex c0 (kwMatchAt cKeywords) "c_keywords"
  let r2 := get_compiled_regex r1.2 cStringMatchAt "c_strings"
  let r3 := get_compiled_regex r2.2 jsCommentMatchAt "c_comments"
  let r4 := get_compiled_regex r3.2 numberMatchAt "c_numbers"
  (spansOf .keyword r1.1 t ++ spansOf .string r2.1 t ++
   spansOf .comment r3.1 t ++ spansOf .number r4.1 t, r4.2)

/-- Html: only the tag rule goes through the cache in the source. -/
def highlight_html_c (c0 : Cache) (t : Text) : List Span × Cache :=
  let r1 := get_compiled_regex c0 htmlTagMatchAt "html_tags"
  (spansOf .keyword r1.1 t ++
   spansOf .comment (blockMatchAt true (strToL "<!--") (strToL "-->")) t ++
   spansOf .string htmlStringMatchAt t, r1.2)

/-- `highlight_syntax` with the cache threaded through the dispatched
highlighter; the first component is the resulting tag state. -/
def highlightSyntaxTagsC (c0 : Cache) (old : List Span) (ext : String) (t : Text) :
    List Span × Cache :=
  let base := old.filter (fun sp => !(allSyntaxTags.contains sp.kind))
  if ext = "py" then
    let r := highlight_python_c c0 t; (base ++ r.1, r.2)
  else if ext ∈ ["js", "ts", "jsx", "tsx"] then
    let r := highlight_javascript_c c0 t; (base ++ r.1, r.2)
  else if ext ∈ ["java", "c", "cpp", "cs", "h"] then
    let r := highlight_c_like_c c0 t; (base ++ r.1, r.2)
  else if ext = "html" then
    let r := highlight_html_c c0 t; (base ++ r.1, r.2)
  else (base, c0)

/- ---------------------------------------------------------------------
Minimap renderer (source: update_minimap, code_editor.py lines 1036-1158).
Pixel geometry: fixed 2-pixel lines with a 1-pixel gap; the float
arithmetic of the source is carried out exactly over the integers it
floors to.  The tk scroll side effects (configure/yview_moveto) alter no
drawn rectangle and are not part of the returned value.
--------------------------------------------------------------------- -/

structure MRect where
  x0 : Nat
  y0 : Nat
  x1 : Nat
  y1 : Nat
  color : Nat × Nat × Nat
deriving DecidableEq, Repr

/-- Minimap line classification (code_editor.py lines 1104-1115): the
first matching rule, in source order, picks the base color of a non-blank
line; `stripped` is the line with leading whitespace removed. -/
def minimapCommentP (stripped : Text) : Bool :=
  hasPrefixAt stripped 0 ['#'] || hasPrefixAt stripped 0 ['/', '/']

def minimapDefKws : List (List Char) :=
  (["def ", "class ", "function ", "public ", "private ", "async ",
    "const ", "let ", "var "]).map strToL

def minimapDefP (stripped : Text) : Bool :=
  minimapDefKws.any (fun kw => kw.isPrefixOf stripped)

def minimapImportKws : List (List Char) :=
  (["import ", "from ", "include ", "using "]).map strToL

/-- Python's substring test `kw in stripped`. -/
def containsSeq (sub l : Text) : Bool :=
  (lazyFindSub true l sub 0).isSome

def minimapImportP (stripped : Text) : Bool :=
  minimapImportKws.any (fun kw => containsSeq kw stripped)

def minimapCtrlKws : List (List Char) :=
  (["if ", "else", "for ", "while ", "switch ", "case ", "return "]).map strToL

def minimapCtrlP (stripped : Text) : Bool :=
  minimapCtrlKws.any (fun kw => kw.isPrefixOf stripped)

def lineBaseColor (stripped : Text) : Nat × Nat × Nat :=
  if minimapCommentP stripped then (106, 153, 85)
  else if minimapDefP stripped then (220, 220, 170)
  else if minimapImportP stripped then (78, 201, 176)
  else if minimapCtrlP stripped then (86, 156, 214)
  else (212, 212, 212)

/-- One line of the minimap body loop: `none` when the line is blank or its
computed content width is zero, else the filled rectangle the source draws. -/
def minimapLineRect (canvasW : Nat) (i : Nat) (line : Text) : Option MRect :=
  if line.all isPySpace then none
  else
    let y := i * 3
    let indent := (line.takeWhile isPySpace).length
    let stripped := line.dropWhile isPySpace
    let color := lineBaseColor stripped
    let lineLen := (line.reverse.dropWhile isPySpace).length
    let indentOffset := min (canvasW / 3) (indent * canvasW / 60)
    let contentWidth :=
      if 100 ≤ lineLen then canvasW - indentOffset
      else lineLen * (canvasW - indentOffset) / 100
    if 0 < contentWidth then
      some ⟨indentOffset, y, indentOffset + contentWidth, y + 2, color⟩
    else none

/-- Source: `update_minimap` — the filled per-line rectangles of the
windowed body loop, and the always-drawn outline-only viewport indicator
`(x0, y0, x1, y1)`.  `firstVis`/`lastVis` are the text widget's first and
last visible line numbers (1-based). -/
def update_minimap (t : Text) (canvasH canvasW firstVis lastVis : Nat) :
    List MRect × Option (Nat × Nat × Nat × Nat) :=
  let lines := t.splitOn '\n'
  if lines = [] then ([], none)
  else if canvasH ≤ 1 || canvasW ≤ 1 then ([], none)
  else
    let total := lines.length
    let vs := firstVis - 50
    let ve := min total (firstVis + 200)
    let fills := (List.range' vs (ve - vs)).filterMap (fun i =>
      match lines[i]? with
      | some line => minimapLineRect canvasW i line
      | none => none)
    let vpTop := (firstVis - 1) * 3
    (fills, some (0, vpTop, canvasW, vpTop + (lastVis - firstVis + 1) * 3))

/- ---------------------------------------------------------------------
Specification-side notions and concrete inputs used by the theorems.
--------------------------------------------------------------------- -/

/-- Number of occurrences of `c` among positions `[lo, hi)` of `t`. -/
def countIn (t : Text) (c : Char) (lo hi : Nat) : Nat :=
  ((t.drop lo).take (hi - lo)).count c

/-- Running balance of the bracket scan over positions `[lo, hi)`:
occurrences of the anchor character minus occurrences of its counterpart. -/
def balSeg (t : Text) (oc cc : Char) (lo hi : Nat) : Int :=
  (countIn t oc lo hi : Int) - (countIn t cc lo hi : Int)

/-- A matcher emits non-degenerate, in-bounds spans and advances the scan. -/
def GoodMatcher (m : Matcher) : Prop :=
  ∀ t p s e, m t p = some (s, e) → p < e ∧ s < e ∧ e ≤ t.length

def txtHashDefFoo : Text := strToL "# def foo():"
def txtBlockNl : Text := strToL "/*a\nb*/"
def txtPyTripleNl : Text := strToL "\"\"\"a\nb\"\"\""
def txtHtmlCommentNl : Text := strToL "<!--a\nb-->"
def txtBacktickNl : Text := Char.ofNat 96 :: 'a' :: '\n' :: 'b' :: [Char.ofNat 96]
def txtParen : Text := ['(']
def txtParenPair : Text := ['(', ')']

/- ---------------------------------------------------------------------
Helper lemmas.
--------------------------------------------------------------------- -/

theorem getElem?_some_lt {t : Text} {i : Nat} {c : Char} (h : t[i]? = some c) :
    i < t.length := by
  obtain ⟨h1, -⟩ := List.getElem?_eq_some_iff.mp h
  exact h1

theorem hasPrefixAt_le {t : Text} {i : Nat} {s : List Char} (hs : s ≠ [])
    (h : hasPrefixAt t i s = true) : i + s.length ≤ t.length := by
  have hp : s <+: t.drop i := List.isPrefixOf_iff_prefix.mp h
  by_cases hi : i ≤ t.length
  · have := hp.length_le
    rw [List.length_drop] at this
    omega
  · rw [List.drop_eq_nil_of_le (by omega)] at hp
    exact absurd (List.prefix_nil.mp hp) hs

theorem runEndA_ge (p : Char → Bool) (t : Text) :
    ∀ f i, i ≤ runEndA p t f i := by
  intro f
  induction f with
  | zero => intro i; simp [runEndA]
  | succ f ih =>
    intro i
    simp only [runEndA]
    cases h : t[i]? with
    | none => exact Nat.le_refl i
    | some c =>
      by_cases hp : p c
      · simpa [hp] using Nat.le_trans (Nat.le_succ i) (ih (i + 1))
      · simp [hp]

theorem runEndA_le (p : Char → Bool) (t : Text) :
    ∀ f i, i ≤ t.length → runEndA p t f i ≤ t.length := by
  intro f
  induction f with
  | zero => intro i hi; simpa [runEndA] using hi
  | succ f ih =>
    intro i hi
    simp only [runEndA]
    cases h : t[i]? with
    | none => simpa using hi
    | some c =>
      by_cases hp : p c
      · have := getElem?_some_lt h
        simpa [hp] using ih (i + 1) (by omega)
      · simpa [hp] using hi

theorem runEnd_ge (p : Char → Bool) (t : Text) (i : Nat) : i ≤ runEnd p t i :=
  runEndA_ge p t _ i

theorem runEnd_le (p : Char → Bool) (t : Text) (i : Nat) (hi : i ≤ t.length) :
    runEnd p t i ≤ t.length :=
  runEndA_le p t _ i hi

theorem lazyFindSubA_some {dA : Bool} {t : Text} {sub : List Char} :
    ∀ {f i q}, lazyFindSubA dA t sub f i = some q →
      i ≤ q ∧ hasPrefixAt t q sub = true := by
  intro f
  induction f with
  | zero => intro i q h; simp [lazyFindSubA] at h
  | succ f ih =>
    intro i q h
    simp only [lazyFindSubA] at h
    by_cases hp : hasPrefixAt t i sub = true
    · rw [if_pos hp] at h
      obtain rfl := Option.some.inj h
      exact ⟨Nat.le_refl _, hp⟩
    · rw [if_neg hp] at h
      cases hg : t[i]? with
      | none => rw [hg] at h; cases h
      | some c =>
        simp only [hg] at h
        by_cases hc : (dA || c != '\n') = true
        · rw [if_pos hc] at h
          obtain ⟨h1, h2⟩ := ih h
          exact ⟨by omega, h2⟩
        · rw [if_neg hc] at h; cases h

theorem escStringEndA_some {dA : Bool} {q : Char} {t : Text} :
    ∀ {f i e}, escStringEndA dA q t f i = some e → i < e ∧ e ≤ t.length := by
  intro f
  induction f with
  | zero => intro i e h; simp [escStringEndA] at h
  | succ f ih =>
    intro i e h
    simp only [escStringEndA] at h
    cases hg : t[i]? with
    | none => rw [hg] at h; cases h
    | some c =>
      have hlt : i < t.length := getElem?_some_lt hg
      simp only [hg] at h
      by_cases hq : c = q
      · rw [if_pos hq] at h
        obtain rfl := Option.some.inj h
        omega
      · rw [if_neg hq] at h
        by_cases hb : c = '\\'
        · rw [if_pos hb] at h
          cases hg2 : t[i + 1]? with
          | none => rw [hg2] at h; cases h
          | some d =>
            simp only [hg2] at h
            by_cases hc : (dA || d != '\n') = true
            · rw [if_pos hc] at h
              obtain ⟨h1, h2⟩ := ih h
              omega
            · rw [if_neg hc] at h; cases h
        · rw [if_neg hb] at h
          obtain ⟨h1, h2⟩ := ih h
          omega

/-- Full characterization of the `$` scan of a non-MULTILINE line-comment
rule: the scan only crosses non-newline characters, and succeeds exactly at
the end of the text or just before a final newline. -/
theorem dollarScanA_some {t : Text} :
    ∀ {f i e}, dollarScanA t f i = some e →
      i ≤ e ∧ e ≤ t.length ∧
      (e = t.length ∨ (e + 1 = t.length ∧ t[e]? = some '\n')) ∧
      (∀ j, i ≤ j → j < e → t[j]? ≠ some '\n') := by
  intro f
  induction f with
  | zero => intro i e h; simp [dollarScanA] at h
  | succ f ih =>
    intro i e h
    simp only [dollarScanA] at h
    by_cases h1 : i = t.length
    · rw [if_pos h1] at h
      obtain rfl := Option.some.inj h
      exact ⟨Nat.le_refl _, Nat.le_of_eq h1, Or.inl h1, fun j hj1 hj2 => by omega⟩
    · rw [if_neg h1] at h
      by_cases h2 : (i + 1 = t.length && t[i]? == some '\n') = true
      · rw [if_pos h2] at h
        obtain rfl := Option.some.inj h
        simp only [Bool.and_eq_true, beq_iff_eq, decide_eq_true_eq] at h2
        exact ⟨Nat.le_refl _, by omega, Or.inr ⟨h2.1, h2.2⟩,
          fun j hj1 hj2 => by omega⟩
      · rw [if_neg h2] at h
        cases hg : t[i]? with
        | none => rw [hg] at h; cases h
        | some c =>
          have hlt : i < t.length := getElem?_some_lt hg
          simp only [hg] at h
          by_cases hc : (c != '\n') = true
          · rw [if_pos hc] at h
            obtain ⟨k1, k2, k3, k4⟩ := ih h
            refine ⟨by omega, k2, k3, fun j hj1 hj2 => ?_⟩
            rcases Nat.eq_or_lt_of_le hj1 with rfl | hj
            · rw [hg]
              intro hcon
              obtain rfl := Option.some.inj hcon
              simp at hc
            · exact k4 j (by omega) hj2
          · rw [if_neg hc] at h; cases h

theorem findIterAux_mem {m : Matcher} {t : Text} (hm : GoodMatcher m) :
    ∀ {f p s e}, (s, e) ∈ findIterAux m t f p → s < e ∧ e ≤ t.length := by
  intro f
  induction f with
  | zero => intro p s e h; simp [findIterAux] at h
  | succ f ih =>
    intro p s e h
    simp only [findIterAux] at h
    by_cases hp : p < t.length
    · rw [if_pos hp] at h
      cases hg : m t p with
      | none => rw [hg] at h; exact ih h
      | some r =>
        obtain ⟨r1, r2⟩ := r
        rw [hg] at h
        rcases List.mem_cons.mp h with heq | hmem
        · simp only [Prod.mk.injEq] at heq
          obtain ⟨rfl, rfl⟩ := heq
          obtain ⟨-, k2, k3⟩ := hm t p _ _ hg
          exact ⟨k2, k3⟩
        · exact ih hmem
    · rw [if_neg hp] at h; cases h

theorem findIterAux_inv {m : Matcher} {t : Text} :
    ∀ {f p s e}, (s, e) ∈ findIterAux m t f p → ∃ q, m t q = some (s, e) := by
  intro f
  induction f with
  | zero => intro p s e h; simp [findIterAux] at h
  | succ f ih =>
    intro p s e h
    simp only [findIterAux] at h
    by_cases hp : p < t.length
    · rw [if_pos hp] at h
      cases hg : m t p with
      | none => rw [hg] at h; exact ih h
      | some r =>
        obtain ⟨r1, r2⟩ := r
        rw [hg] at h
        rcases List.mem_cons.mp h with heq | hmem
        · simp only [Prod.mk.injEq] at heq
          obtain ⟨rfl, rfl⟩ := heq
          exact ⟨p, hg⟩
        · exact ih hmem
    · rw [if_neg hp] at h; cases h

theorem spansOf_mem {k : SpanKind} {m : Matcher} {t : Text} {sp : Span}
    (hm : GoodMatcher m) (h : sp ∈ spansOf k m t) :
    sp.s < sp.e ∧ sp.e ≤ t.length := by
  obtain ⟨⟨s, e⟩, hmem, rfl⟩ := List.mem_map.mp h
  exact findIterAux_mem hm hmem

theorem good_kwMatchAt {kws : List (List Char)} (hne : ∀ w ∈ kws, w ≠ []) :
    GoodMatcher (kwMatchAt kws) := by
  intro t p s e h
  simp only [kwMatchAt] at h
  by_cases hb : boundaryAt t p = true
  · rw [if_pos hb] at h
    cases hf : kws.find? (fun w => hasPrefixAt t p w && boundaryAt t (p + w.length)) with
    | none => rw [hf] at h; cases h
    | some w =>
      rw [hf] at h
      simp only [Option.some.injEq, Prod.mk.injEq] at h
      obtain ⟨rfl, rfl⟩ := h
      have hw : w ∈ kws := List.mem_of_find?_eq_some hf
      have hpred := List.find?_some hf
      simp only [Bool.and_eq_true] at hpred
      have hwne := hne w hw
      have hlen : 0 < w.length := List.length_pos.mpr hwne
      have hle := hasPrefixAt_le hwne hpred.1
      exact ⟨by omega, by omega, hle⟩
  · rw [if_neg hb] at h; cases h

theorem good_pyStringMatchAt : GoodMatcher pyStringMatchAt := by
  intro t p s e h
  simp only [pyStringMatchAt] at h
  by_cases h1 : hasPrefixAt t p ['"', '"', '"'] = true
  · rw [if_pos h1] at h
    have hle3 := hasPrefixAt_le (by simp) h1
    simp only [List.length_cons, List.length_nil] at hle3
    cases hf : lazyFindSub true t ['"', '"', '"'] (p + 3) with
    | none =>
      rw [hf] at h
      simp only [Option.some.injEq, Prod.mk.injEq] at h
      obtain ⟨rfl, rfl⟩ := h
      exact ⟨by omega, by omega, by omega⟩
    | some qq =>
      rw [hf] at h
      simp only [Option.some.injEq, Prod.mk.injEq] at h
      obtain ⟨rfl, rfl⟩ := h
      obtain ⟨hq1, hq2⟩ := lazyFindSubA_some hf
      have hq3 := hasPrefixAt_le (by simp) hq2
      simp only [List.length_cons, List.length_nil] at hq3
      exact ⟨by omega, by omega, by omega⟩
  · rw [if_neg h1] at h
    by_cases h2 : hasPrefixAt t p ['\'', '\'', '\''] = true
    · rw [if_pos h2] at h
      have hle3 := hasPrefixAt_le (by simp) h2
      simp only [List.length_cons, List.length_nil] at hle3
      cases hf : lazyFindSub true t ['\'', '\'', '\''] (p + 3) with
      | none =>
        rw [hf] at h
        simp only [Option.some.injEq, Prod.mk.injEq] at h
        obtain ⟨rfl, rfl⟩ := h
        exact ⟨by omega, by omega, by omega⟩
      | some qq =>
        rw [hf] at h
        simp only [Option.some.injEq, Prod.mk.injEq] at h
        obtain ⟨rfl, rfl⟩ := h
        obtain ⟨hq1, hq2⟩ := lazyFindSubA_some hf
        have hq3 := hasPrefixAt_le (by simp) hq2
        simp only [List.length_cons, List.length_nil] at hq3
        exact ⟨by omega, by omega, by omega⟩
    · rw [if_neg h2] at h
      by_cases h3 : (t[p]? == some '"') = true
      · rw [if_pos h3] at h
        cases hf : escStringEnd true '"' t (p + 1) with
        | none => rw [hf] at h; cases h
        | some ee =>
          rw [hf] at h
          simp only [Option.map_some', Option.some.injEq, Prod.mk.injEq] at h
          obtain ⟨rfl, rfl⟩ := h
          obtain ⟨k1, k2⟩ := escStringEndA_some hf
          exact ⟨by omega, by omega, k2⟩
      · rw [if_neg h3] at h
        by_cases h4 : (t[p]? == some '\'') = true
        · rw [if_pos h4] at h
          cases hf : escStringEnd true '\'' t (p + 1) with
          | none => rw [hf] at h; cases h
          | some ee =>
            rw [hf] at h
            simp only [Option.map_some', Option.some.injEq, Prod.mk.injEq] at h
            obtain ⟨rfl, rfl⟩ := h
            obtain ⟨k1, k2⟩ := escStringEndA_some hf
            exact ⟨by omega, by omega, k2⟩
        · rw [if_neg h4] at h; cases h

theorem good_lineCommentMatchAt {marker : List Char} (hne : marker ≠ []) :
    GoodMatcher (lineCommentMatchAt marker) := by
  intro t p s e h
  simp only [lineCommentMatchAt] at h
  by_cases h1 : hasPrefixAt t p marker = true
  · rw [if_pos h1] at h
    cases hf : dollarScan t (p + marker.length) with
    | none => rw [hf] at h; cases h
    | some ee =>
      rw [hf] at h
      simp only [Option.map_some', Option.some.injEq, Prod.mk.injEq] at h
      obtain ⟨rfl, rfl⟩ := h
      obtain ⟨k1, k2, -, -⟩ := dollarScanA_some hf
      have hlen : 0 < marker.length := List.length_pos.mpr hne
      exact ⟨by omega, by omega, k2⟩
  · rw [if_neg h1] at h; cases h

theorem good_blockMatchAt {dA : Bool} {opn cls : List Char}
    (ho : opn ≠ []) (hc : cls ≠ []) : GoodMatcher (blockMatchAt dA opn cls) := by
  intro t p s e h
  simp only [blockMatchAt] at h
  by_cases h1 : hasPrefixAt t p opn = true
  · rw [if_pos h1] at h
    cases hf : lazyFindSub dA t cls (p + opn.length) with
    | none => rw [hf] at h; cases h
    | some qq =>
      rw [hf] at h
      simp only [Option.map_some', Option.some.injEq, Prod.mk.injEq] at h
      obtain ⟨rfl, rfl⟩ := h
      obtain ⟨k1, k2⟩ := lazyFindSubA_some hf
      have := hasPrefixAt_le hc k2
      have hlen : 0 < opn.length := List.length_pos.mpr ho
      have hlenc : 0 < cls.length := List.length_pos.mpr hc
      exact ⟨by omega, by omega, by omega⟩
  · rw [if_neg h1] at h; cases h

theorem good_jsCommentMatchAt : GoodMatcher jsCommentMatchAt := by
  intro t p s e h
  simp only [jsCommentMatchAt] at h
  cases hf : lineCommentMatchAt ['/', '/'] t p with
  | some r =>
    rw [hf] at h
    obtain rfl := Option.some.inj h
    exact good_lineCommentMatchAt (by simp) t p s e hf
  | none =>
    rw [hf] at h
    exact good_blockMatchAt (by simp) (by simp) t p s e h

theorem good_numberMatchAt : GoodMatcher numberMatchAt := by
  intro t p s e h
  simp only [numberMatchAt] at h
  by_cases hb : (boundaryAt t p && (t[p]?.elim false Char.isDigit)) = true
  · rw [if_pos hb] at h
    have hp : p < t.length := by
      cases hg : t[p]? with
      | none => rw [hg] at hb; simp at hb
      | some c => exact getElem?_some_lt hg
    have hq1 : p + 1 ≤ runEnd Char.isDigit t (p + 1) := runEnd_ge _ _ _
    have hq2 : runEnd Char.isDigit t (p + 1) ≤ t.length := runEnd_le _ _ _ (by omega)
    by_cases hdot : (t[runEnd Char.isDigit t (p + 1)]? == some '.') = true
    · rw [if_pos hdot] at h
      have hqlt : runEnd Char.isDigit t (p + 1) < t.length :=
        getElem?_some_lt (eq_of_beq hdot)
      have hr1 : runEnd Char.isDigit t (p + 1) + 1 ≤
          runEnd Char.isDigit t (runEnd Char.isDigit t (p + 1) + 1) := runEnd_ge _ _ _
      have hr2 : runEnd Char.isDigit t (runEnd Char.isDigit t (p + 1) + 1) ≤ t.length :=
        runEnd_le _ _ _ (by omega)
      by_cases hb1 : boundaryAt t (runEnd Char.isDigit t (runEnd Char.isDigit t (p + 1) + 1)) = true
      · rw [if_pos hb1] at h
        simp only [Option.some.injEq, Prod.mk.injEq] at h
        obtain ⟨rfl, rfl⟩ := h
        exact ⟨by omega, by omega, hr2⟩
      · rw [if_neg hb1] at h
        by_cases hb2 : boundaryAt t (runEnd Char.isDigit t (p + 1) + 1) = true
        · rw [if_pos hb2] at h
          simp only [Option.some.injEq, Prod.mk.injEq] at h
          obtain ⟨rfl, rfl⟩ := h
          exact ⟨by omega, by omega, by omega⟩
        · rw [if_neg hb2] at h
          simp only [Option.some.injEq, Prod.mk.injEq] at h
          obtain ⟨rfl, rfl⟩ := h
          exact ⟨by omega, by omega, hq2⟩
    · rw [if_neg hdot] at h
      by_cases hb3 : boundaryAt t (runEnd Char.isDigit t (p + 1)) = true
      · rw [if_pos hb3] at h
        simp only [Option.some.injEq, Prod.mk.injEq] at h
        obtain ⟨rfl, rfl⟩ := h
        exact ⟨by omega, by omega, hq2⟩
      · rw [if_neg hb3] at h; cases h
  · rw [if_neg hb] at h; cases h

theorem good_defNameMatchAt {kw : List Char} (hkw : kw ≠ []) :
    GoodMatcher (defNameMatchAt kw) := by
  intro t p s e h
  simp only [defNameMatchAt] at h
  by_cases hb : (boundaryAt t p && hasPrefixAt t p kw) = true
  · rw [if_pos hb] at h
    simp only [Bool.and_eq_true] at hb
    have hple := hasPrefixAt_le hkw hb.2
    have hklen : 0 < kw.length := List.length_pos.mpr hkw
    have hj1 : p + kw.length ≤ runEnd isPySpace t (p + kw.length) := runEnd_ge _ _ _
    have hj2 : runEnd isPySpace t (p + kw.length) ≤ t.length := runEnd_le _ _ _ hple
    by_cases hij : p + kw.length < runEnd isPySpace t (p + kw.length)
    · rw [if_pos hij] at h
      have hk1 : runEnd isPySpace t (p + kw.length) ≤
          runEnd isWordChar t (runEnd isPySpace t (p + kw.length)) := runEnd_ge _ _ _
      have hk2 : runEnd isWordChar t (runEnd isPySpace t (p + kw.length)) ≤ t.length :=
        runEnd_le _ _ _ hj2
      by_cases hjk : runEnd isPySpace t (p + kw.length) <
          runEnd isWordChar t (runEnd isPySpace t (p + kw.length))
      · rw [if_pos hjk] at h
        simp only [Option.some.injEq, Prod.mk.injEq] at h
        obtain ⟨rfl, rfl⟩ := h
        exact ⟨by omega, hjk, hk2⟩
      · rw [if_neg hjk] at h; cases h
    · rw [if_neg hij] at h; cases h
  · rw [if_neg hb] at h; cases h

theorem findCharFrom_some {t : Text} {c : Char} {i g : Nat}
    (h : findCharFrom t c i = some g) : i ≤ g ∧ g < t.length := by
  simp only [findCharFrom] at h
  by_cases hg : (t[runEnd (fun d => d != c) t i]? == some c) = true
  · rw [if_pos hg] at h
    obtain rfl := Option.some.inj h
    exact ⟨runEnd_ge _ _ _, getElem?_some_lt (eq_of_beq hg)⟩
  · rw [if_neg hg] at h; cases h

theorem good_htmlTagMatchAt : GoodMatcher htmlTagMatchAt := by
  intro t p s e h
  simp only [htmlTagMatchAt] at h
  by_cases h0 : (t[p]? == some '<') = true
  · rw [if_pos h0] at h
    by_cases h1 : (t[p + 1]? == some '/') = true
    · rw [if_pos h1] at h
      by_cases h2 : p + 2 < runEnd (fun c => isWordChar c || c == '-') t (p + 2)
      · rw [if_pos h2] at h
        cases hf : findCharFrom t '>' (runEnd (fun c => isWordChar c || c == '-') t (p + 2)) with
        | none => rw [hf] at h; cases h
        | some g =>
          rw [hf] at h
          simp only [Option.map_some', Option.some.injEq, Prod.mk.injEq] at h
          obtain ⟨rfl, rfl⟩ := h
          obtain ⟨k1, k2⟩ := findCharFrom_some hf
          exact ⟨by omega, by omega, by omega⟩
      · rw [if_neg h2] at h; cases h
    · rw [if_neg h1] at h
      by_cases h2 : p + 1 < runEnd (fun c => isWordChar c || c == '-') t (p + 1)
      · rw [if_pos h2] at h
        cases hf : findCharFrom t '>' (runEnd (fun c => isWordChar c || c == '-') t (p + 1)) with
        | none => rw [hf] at h; cases h
        | some g =>
          rw [hf] at h
          simp only [Option.map_some', Option.some.injEq, Prod.mk.injEq] at h
          obtain ⟨rfl, rfl⟩ := h
          obtain ⟨k1, k2⟩ := findCharFrom_some hf
          exact ⟨by omega, by omega, by omega⟩
      · rw [if_neg h2] at h; cases h
  · rw [if_neg h0] at h; cases h

theorem good_htmlStringMatchAt : GoodMatcher htmlStringMatchAt := by
  intro t p s e h
  simp only [htmlStringMatchAt] at h
  by_cases h0 : (t[p]? == some '"') = true
  · rw [if_pos h0] at h
    cases hf : findCharFrom t '"' (p + 1) with
    | none => rw [hf] at h; cases h
    | some g =>
      rw [hf] at h
      simp only [Option.map_some', Option.some.injEq, Prod.mk.injEq] at h
      obtain ⟨rfl, rfl⟩ := h
      obtain ⟨k1, k2⟩ := findCharFrom_some hf
      exact ⟨by omega, by omega, by omega⟩
  · rw [if_neg h0] at h
    by_cases h1 : (t[p]? == some '\'') = true
    · rw [if_pos h1] at h
      cases hf : findCharFrom t '\'' (p + 1) with
      | none => rw [hf] at h; cases h
      | some g =>
        rw [hf] at h
        simp only [Option.map_some', Option.some.injEq, Prod.mk.injEq] at h
        obtain ⟨rfl, rfl⟩ := h
        obtain ⟨k1, k2⟩ := findCharFrom_some hf
        exact ⟨by omega, by omega, by omega⟩
    · rw [if_neg h1] at h; cases h

theorem good_jsStringMatchAt : GoodMatcher jsStringMatchAt := by
  intro t p s e h
  simp only [jsStringMatchAt] at h
  by_cases h0 : (t[p]? == some (Char.ofNat 96)) = true
  · rw [if_pos h0] at h
    cases hf : lazyFindSub false t [Char.ofNat 96] (p + 1) with
    | none => rw [hf] at h; cases h
    | some qq =>
      rw [hf] at h
      simp only [Option.map_some', Option.some.injEq, Prod.mk.injEq] at h
      obtain ⟨rfl, rfl⟩ := h
      obtain ⟨k1, k2⟩ := lazyFindSubA_some hf
      have k3 := hasPrefixAt_le (by simp) k2
      simp only [List.length_cons, List.length_nil] at k3
      exact ⟨by omega, by omega, by omega⟩
  · rw [if_neg h0] at h
    by_cases h1 : (t[p]? == some '"') = true
    · rw [if_pos h1] at h
      cases hf : escStringEnd false '"' t (p + 1) with
      | none => rw [hf] at h; cases h
      | some ee =>
        rw [hf] at h
        simp only [Option.map_some', Option.some.injEq, Prod.mk.injEq] at h
        obtain ⟨rfl, rfl⟩ := h
        obtain ⟨k1, k2⟩ := escStringEndA_some hf
        exact ⟨by omega, by omega, k2⟩
    · rw [if_neg h1] at h
      by_cases h2 : (t[p]? == some '\'') = true
      · rw [if_pos h2] at h
        cases hf : escStringEnd false '\'' t (p + 1) with
        | none => rw [hf] at h; cases h
        | some ee =>
          rw [hf] at h
          simp only [Option.map_some', Option.some.injEq, Prod.mk.injEq] at h
          obtain ⟨rfl, rfl⟩ := h
          obtain ⟨k1, k2⟩ := escStringEndA_some hf
          exact ⟨by omega, by omega, k2⟩
      · rw [if_neg h2] at h; cases h

theorem good_cStringMatchAt : GoodMatcher cStringMatchAt := by
  intro t p s e h
  simp only [cStringMatchAt] at h
  by_cases h0 : (t[p]? == some '"') = true
  · rw [if_pos h0] at h
    cases hf : escStringEnd false '"' t (p + 1) with
    | none => rw [hf] at h; cases h
    | some ee =>
      rw [hf] at h
      simp only [Option.map_some', Option.some.injEq, Prod.mk.injEq] at h
      obtain ⟨rfl, rfl⟩ := h
      obtain ⟨k1, k2⟩ := escStringEndA_some hf
      exact ⟨by omega, by omega, k2⟩
  · rw [if_neg h0] at h; cases h

theorem highlight_python_bounds {t : Text} {sp : Span}
    (h : sp ∈ highlight_python t) : sp.s < sp.e ∧ sp.e ≤ t.length := by
  simp only [highlight_python, List.mem_append] at h
  rcases h with ((((((h | h) | h) | h) | h) | h) | h)
  · exact spansOf_mem (good_kwMatchAt (by decide)) h
  · exact spansOf_mem (good_kwMatchAt (by decide)) h
  · exact spansOf_mem good_pyStringMatchAt h
  · exact spansOf_mem (good_lineCommentMatchAt (by simp)) h
  · exact spansOf_mem good_numberMatchAt h
  · exact spansOf_mem (good_defNameMatchAt (by decide)) h
  · exact spansOf_mem (good_defNameMatchAt (by decide)) h

theorem highlight_javascript_bounds {t : Text} {sp : Span}
    (h : sp ∈ highlight_javascript t) : sp.s < sp.e ∧ sp.e ≤ t.length := by
  simp only [highlight_javascript, List.mem_append] at h
  rcases h with (((h | h) | h) | h)
  · exact spansOf_mem (good_kwMatchAt (by decide)) h
  · exact spansOf_mem good_jsStringMatchAt h
  · exact spansOf_mem good_jsCommentMatchAt h
  · exact spansOf_mem good_numberMatchAt h

theorem highlight_c_like_bounds {t : Text} {sp : Span}
    (h : sp ∈ highlight_c_like t) : sp.s < sp.e ∧ sp.e ≤ t.length := by
  simp only [highlight_c_like, List.mem_append] at h
  rcases h with (((h | h) | h) | h)
  · exact spansOf_mem (good_kwMatchAt (by decide)) h
  · exact spansOf_mem good_cStringMatchAt h
  · exact spansOf_mem good_jsCommentMatchAt h
  · exact spansOf_mem good_numberMatchAt h

theorem highlight_html_bounds {t : Text} {sp : Span}
    (h : sp ∈ highlight_html t) : sp.s < sp.e ∧ sp.e ≤ t.length := by
  simp only [highlight_html, List.mem_append] at h
  rcases h with ((h | h) | h)
  · exact spansOf_mem good_htmlTagMatchAt h
  · exact spansOf_mem (good_blockMatchAt (by decide) (by decide)) h
  · exact spansOf_mem good_htmlStringMatchAt h

/-- C1: for every document text and every language profile, every
`HighlightSpan` emitted by the highlight engine satisfies
`0 ≤ start < end ≤ len(text)`. -/
theorem highlightSpans_in_bounds (ext : String) (t : Text) (sp : Span)
    (h : sp ∈ highlightSpans ext t) :
    0 ≤ sp.s ∧ sp.s < sp.e ∧ sp.e ≤ t.length := by
  simp only [highlightSpans] at h
  by_cases h1 : ext = "py"
  · rw [if_pos h1] at h
    exact ⟨Nat.zero_le _, highlight_python_bounds h⟩
  · rw [if_neg h1] at h
    by_cases h2 : ext ∈ ["js", "ts", "jsx", "tsx"]
    · rw [if_pos h2] at h
      exact ⟨Nat.zero_le _, highlight_javascript_bounds h⟩
    · rw [if_neg h2] at h
      by_cases h3 : ext ∈ ["java", "c", "cpp", "cs", "h"]
      · rw [if_pos h3] at h
        exact ⟨Nat.zero_le _, highlight_c_like_bounds h⟩
      · rw [if_neg h3] at h
        by_cases h4 : ext = "html"
        · rw [if_pos h4] at h
          exact ⟨Nat.zero_le _, highlight_html_bounds h⟩
        · rw [if_neg h4] at h
          cases h

/-- C1 witness: a concrete span of the c-like profile, in bounds. -/
theorem highlightSpans_in_bounds_witness :
    (Span.mk .number 0 1) ∈ highlightSpans "c" (strToL "1") ∧
      0 ≤ (Span.mk .number 0 1).s ∧
      (Span.mk .number 0 1).s < (Span.mk .number 0 1).e ∧
      (Span.mk .number 0 1).e ≤ (strToL "1").length :=
  ⟨by decide, highlightSpans_in_bounds "c" (strToL "1") (Span.mk .number 0 1) (by decide)⟩

theorem allSyntaxTags_complete (k : SpanKind) : allSyntaxTags.contains k = true := by
  cases k <;> rfl

/-- C5: for every text, if the file extension is not one of the recognized
ones, the highlight engine produces an empty span set (and no error); all
previously applied syntax tags are removed, whatever they were. -/
theorem unknown_ext_no_spans (ext : String) (old : List Span) (t : Text)
    (h : ext ∉ ["py", "js", "ts", "jsx", "tsx", "java", "c", "cpp", "cs", "h", "html"]) :
    highlightSyntaxTags old ext t = [] := by
  simp only [List.mem_cons, List.not_mem_nil, not_or] at h
  obtain ⟨e1, e2, e3, e4, e5, e6, e7, e8, e9, e10, e11, -⟩ := h
  have hfilter : old.filter (fun sp => !(allSyntaxTags.contains sp.kind)) = [] := by
    apply List.filter_eq_nil_iff.mpr
    intro sp _
    simp only [Bool.not_eq_true', Bool.not_eq_false]
    exact allSyntaxTags_complete sp.kind
  have c2 : ¬(ext ∈ ["js", "ts", "jsx", "tsx"]) := by simp [e2, e3, e4, e5]
  have c3 : ¬(ext ∈ ["java", "c", "cpp", "cs", "h"]) := by
    simp [e6, e7, e8, e9, e10]
  simp only [highlightSyntaxTags, highlightSpans, if_neg e1, if_neg c2,
    if_neg c3, if_neg e11, hfilter, List.append_nil]

/-- C5 witness: a `.txt` extension yields the empty span set even over a
nonempty prior tag state. -/
theorem unknown_ext_no_spans_witness :
    ("txt" ∉ ["py", "js", "ts", "jsx", "tsx", "java", "c", "cpp", "cs", "h", "html"]) ∧
      highlightSyntaxTags [Span.mk .keyword 0 1] "txt" (strToL "def x") = [] :=
  ⟨by decide, unknown_ext_no_spans "txt" [Span.mk .keyword 0 1] (strToL "def x") (by decide)⟩

/-- C3 counterexample: on `"# def foo():"` in the py profile the engine
does additionally tag `def` as Keyword and `foo` as Function — keyword and
definition-name matches inside the comment span are not masked. -/
theorem comment_not_masking_cx :
    (Span.mk .keyword 2 5) ∈ highlight_python txtHashDefFoo ∧
      (Span.mk .function 6 9) ∈ highlight_python txtHashDefFoo := by
  decide

/-- C3 amended: on `"# def foo():"` the py profile emits a Comment span
covering the whole line, and additionally a Keyword span over `def` and a
Function span over `foo`; overlapping matches inside the comment are not
suppressed (overlap resolution is left to the rendering layer). -/
theorem comment_not_masking_amended :
    highlight_python txtHashDefFoo =
      [Span.mk .keyword 2 5, Span.mk .comment 0 12, Span.mk .function 6 9] := by
  decide

/-- C4 counterexample: a closed block comment containing a newline in the
js/ts profile produces no span at all (the pattern is compiled without
DOTALL), contradicting the claim that it yields one span covering the
construct. -/
theorem multiline_one_span_cx : highlight_javascript txtBlockNl = [] := by
  decide

/-- C7: for every non-blank line the minimap assigns its category (encoded
by its fixed display colour) by the first matching rule in the fixed order:
comment prefix, then definition-keyword prefix, then import keyword
anywhere in the line, then control-flow-keyword prefix, else plain. -/
theorem minimap_category_priority (line : Text)
    (_hnb : ¬(line.all isPySpace = true)) :
    (minimapCommentP (line.dropWhile isPySpace) = true →
      lineBaseColor (line.dropWhile isPySpace) = (106, 153, 85)) ∧
    (minimapCommentP (line.dropWhile isPySpace) = false →
      minimapDefP (line.dropWhile isPySpace) = true →
      lineBaseColor (line.dropWhile isPySpace) = (220, 220, 170)) ∧
    (minimapCommentP (line.dropWhile isPySpace) = false →
      minimapDefP (line.dropWhile isPySpace) = false →
      minimapImportP (line.dropWhile isPySpace) = true →
      lineBaseColor (line.dropWhile isPySpace) = (78, 201, 176)) ∧
    (minimapCommentP (line.dropWhile isPySpace) = false →
      minimapDefP (line.dropWhile isPySpace) = false →
      minimapImportP (line.dropWhile isPySpace) = false →
      minimapCtrlP (line.dropWhile isPySpace) = true →
      lineBaseColor (line.dropWhile isPySpace) = (86, 156, 214)) ∧
    (minimapCommentP (line.dropWhile isPySpace) = false →
      minimapDefP (line.dropWhile isPySpace) = false →
      minimapImportP (line.dropWhile isPySpace) = false →
      minimapCtrlP (line.dropWhile isPySpace) = false →
      lineBaseColor (line.dropWhile isPySpace) = (212, 212, 212)) := by
  exact ⟨fun h1 => by simp [lineBaseColor, h1],
    fun h1 h2 => by simp [lineBaseColor, h1, h2],
    fun h1 h2 h3 => by simp [lineBaseColor, h1, h2, h3],
    fun h1 h2 h3 h4 => by simp [lineBaseColor, h1, h2, h3, h4],
    fun h1 h2 h3 h4 => by simp [lineBaseColor, h1, h2, h3, h4]⟩

/-- C7 witness: the line `"  if x:"` is non-blank, matches no
earlier rule and gets the control-flow colour. -/
theorem minimap_category_priority_witness :
    ¬((strToL "  if x:").all isPySpace = true) ∧
      lineBaseColor ((strToL "  if x:").dropWhile isPySpace) = (86, 156, 214) :=
  ⟨by decide, (minimap_category_priority (strToL "  if x:") (by decide)).2.2.2.1
    (by decide) (by decide) (by decide) (by decide)⟩

/-- C8: for a text consisting solely of blank lines, one minimap render
call emits zero filled line-rectangles but still emits the outline-only
viewport-indicator rectangle. -/
theorem minimap_blank_text (t : Text) (canvasH canvasW firstVis lastVis : Nat)
    (hblank : ∀ line ∈ t.splitOn '\n', line.all isPySpace = true)
    (hH : 1 < canvasH) (hW : 1 < canvasW) :
    (update_minimap t canvasH canvasW firstVis lastVis).1 = [] ∧
      (update_minimap t canvasH canvasW firstVis lastVis).2.isSome = true := by
  have hne : ¬(t.splitOn '\n' = []) := by
    simp only [List.splitOn]
    exact List.splitOnP_ne_nil _ _
  have hcanvas : ¬(canvasH ≤ 1 || canvasW ≤ 1) = true := by
    simp only [Bool.or_eq_true, decide_eq_true_eq]
    omega
  simp only [update_minimap, if_neg hne, hcanvas, Bool.false_eq_true, if_false]
  refine ⟨List.filterMap_eq_nil_iff.mpr fun i _ => ?_, rfl⟩
  cases hg : (t.splitOn '\n')[i]? with
  | none => simp [hg]
  | some line =>
    have hmem : line ∈ t.splitOn '\n' := List.getElem?_mem hg
    simp [hg, minimapLineRect, hblank line hmem]

/-- C8 witness: two whitespace lines on a 100×100 canvas. -/
theorem minimap_blank_text_witness :
    (∀ line ∈ (strToL "  \n\t").splitOn '\n', line.all isPySpace = true) ∧
      (update_minimap (strToL "  \n\t") 100 100 1 1).1 = [] ∧
      (update_minimap (strToL "  \n\t") 100 100 1 1).2.isSome = true :=
  ⟨by decide, minimap_blank_text (strToL "  \n\t") 100 100 1 1 (by decide)
    (by decide) (by decide)⟩

theorem bracketScanA_some_lt {t : Text} {startIdx : Int} {oc cc : Char} {d : Int} :
    ∀ {f : Nat} {i cnt : Int} {j : Nat},
      bracketScanA t startIdx oc cc d f i cnt = some j → j < t.length := by
  intro f
  induction f with
  | zero => intro i cnt j h; simp [bracketScanA] at h
  | succ f ih =>
    intro i cnt j h
    simp only [bracketScanA] at h
    by_cases hb : 0 ≤ i ∧ i < (t.length : Int)
    · rw [dif_pos hb] at h
      by_cases hr : ((if t.get ⟨i.toNat, by omega⟩ = oc then cnt + 1
          else if t.get ⟨i.toNat, by omega⟩ = cc then cnt - 1 else cnt) = 0 ∧ i ≠ startIdx)
      · rw [if_pos hr] at h
        obtain rfl := Option.some.inj h
        omega
      · rw [if_neg hr] at h
        exact ih h
    · rw [dif_neg hb] at h; cases h

theorem anchorScan_some {t : Text} {idx : Nat} {c : Char} {p q : Nat}
    (h : anchorScan t idx c = some (p, q)) : p = idx ∧ q < t.length := by
  simp only [anchorScan] at h
  cases h1 : List.lookup c matchingPairsL with
  | some cl =>
    simp only [h1] at h
    cases hf : find_matching_bracket t idx c cl 1 with
    | none => simp [hf] at h
    | some j =>
      simp only [hf, Option.map_some', Option.some.injEq, Prod.mk.injEq] at h
      obtain ⟨rfl, rfl⟩ := h
      exact ⟨rfl, bracketScanA_some_lt hf⟩
  | none =>
    simp only [h1] at h
    cases h2 : List.lookup c closingPairsL with
    | some op =>
      simp only [h2] at h
      cases hf : find_matching_bracket t idx c op (-1) with
      | none => simp [hf] at h
      | some j =>
        simp only [hf, Option.map_some', Option.some.injEq, Prod.mk.injEq] at h
        obtain ⟨rfl, rfl⟩ := h
        exact ⟨rfl, bracketScanA_some_lt hf⟩
    | none => simp [h2] at h

/-- C6: the bracket matcher is a total function: for every text and every
cursor offset `0 ≤ offset ≤ len(text)` (empty text and boundary offsets
included) it yields a well-defined result, and any match it reports holds
in-bounds offsets only — the scan never touches a character outside the
buffer. -/
theorem matchAt_total (t : Text) (off : Nat) (hoff : off ≤ t.length) :
    (∀ p q, (highlight_matching_bracket t off).1 = some (p, q) →
      p < t.length ∧ q < t.length) ∧
    (∀ p q, (highlight_matching_bracket t off).2 = some (p, q) →
      p < t.length ∧ q < t.length) := by
  constructor <;> intro p q h <;> simp only [highlight_matching_bracket] at h
  · by_cases h0 : off = 0
    · rw [if_pos h0] at h; cases h
    · rw [if_neg h0] at h
      cases hg : t[off - 1]? with
      | none => simp [hg] at h
      | some c =>
        simp only [hg] at h
        obtain ⟨rfl, hq⟩ := anchorScan_some h
        exact ⟨getElem?_some_lt hg, hq⟩
  · cases hg : t[off]? with
    | none => simp [hg] at h
    | some c =>
      simp only [hg] at h
      obtain ⟨rfl, hq⟩ := anchorScan_some h
      exact ⟨getElem?_some_lt hg, hq⟩

/-- C6 witness: on `"()"` with the cursor after the opener, the before
anchor reports the in-bounds pair `(0, 1)`. -/
theorem matchAt_total_witness :
    1 ≤ txtParenPair.length ∧
      (highlight_matching_bracket txtParenPair 1).1 = some (0, 1) ∧
      (0 < txtParenPair.length ∧ 1 < txtParenPair.length) :=
  ⟨by decide, by decide, (matchAt_total txtParenPair 1 (by decide)).1 0 1 (by decide)⟩

theorem hasPrefixAt_getElem {t : Text} {i : Nat} {s : List Char}
    (h : hasPrefixAt t i s = true) {k : Nat} (hk : k < s.length) :
    t[i + k]? = s[k]? := by
  have hp : s <+: t.drop i := List.isPrefixOf_iff_prefix.mp h
  obtain ⟨u, hu⟩ := hp
  rw [← List.getElem?_drop, ← hu, List.getElem?_append_left hk]

theorem lineComment_shape {marker : List Char} {t : Text} {q s e : Nat}
    (hnl : ∀ c ∈ marker, c ≠ '\n')
    (h : lineCommentMatchAt marker t q = some (s, e)) :
    s = q ∧
      (e = t.length ∨ (e + 1 = t.length ∧ t[e]? = some '\n')) ∧
      (∀ j, s < j → j + 1 < t.length → t[j]? ≠ some '\n') := by
  simp only [lineCommentMatchAt] at h
  by_cases h1 : hasPrefixAt t q marker = true
  · rw [if_pos h1] at h
    cases hf : dollarScan t (q + marker.length) with
    | none => simp [hf] at h
    | some ee =>
      simp only [hf, Option.map_some', Option.some.injEq, Prod.mk.injEq] at h
      obtain ⟨rfl, rfl⟩ := h
      obtain ⟨k1, k2, k3, k4⟩ := dollarScanA_some hf
      refine ⟨rfl, k3, fun j hj1 hj2 => ?_⟩
      by_cases hcase1 : j < q + marker.length
      · have hk : j - q < marker.length := by omega
        have hge := hasPrefixAt_getElem h1 hk
        have hqj : q + (j - q) = j := by omega
        rw [hqj] at hge
        rw [hge]
        intro hcon
        exact hnl '\n' (List.getElem?_mem hcon) rfl
      · by_cases hcase2 : j < ee
        · exact k4 j (by omega) hcase2
        · rcases k3 with hk3 | ⟨hk3, -⟩
          · rw [List.getElem?_eq_none (by omega)]
            simp
          · exact absurd (by omega : j < ee) hcase2
  · rw [if_neg h1] at h; cases h

theorem jsComment_slash_shape {t : Text} {q s e : Nat}
    (h : jsCommentMatchAt t q = some (s, e))
    (hpre : hasPrefixAt t s ['/', '/'] = true) :
    (e = t.length ∨ (e + 1 = t.length ∧ t[e]? = some '\n')) ∧
      (∀ j, s < j → j + 1 < t.length → t[j]? ≠ some '\n') := by
  simp only [jsCommentMatchAt] at h
  cases hline : lineCommentMatchAt ['/', '/'] t q with
  | some r =>
    simp only [hline] at h
    obtain rfl := Option.some.inj h
    obtain ⟨-, h2, h3⟩ := lineComment_shape (by decide) hline
    exact ⟨h2, h3⟩
  | none =>
    simp only [hline] at h
    simp only [blockMatchAt] at h
    by_cases hb : hasPrefixAt t q ['/', '*'] = true
    · rw [if_pos hb] at h
      simp only [Option.map_eq_some', Prod.mk.injEq] at h
      obtain ⟨qq, hfind, rfl, rfl⟩ := h
      · have hs : t[q + 1]? = some '/' :=
          (by decide : (['/', '/'] : List Char)[1]? = some '/') ▸
            hasPrefixAt_getElem hpre (by decide)
        have hb1 : t[q + 1]? = some '*' :=
          (by decide : (['/', '*'] : List Char)[1]? = some '*') ▸
            hasPrefixAt_getElem hb (by decide)
        rw [hs] at hb1
        cases hb1
    · rw [if_neg hb] at h; cases h

/-- C10: because the line-comment rules are compiled without MULTILINE,
every span of the py `#.*?$` rule — and every span of the js/ts and c-like
comment rule that starts with `//` — ends at `len(text)`, or at
`len(text) - 1` when the text ends with a newline; consequently no newline
other than a final one can follow the span's start, so a line comment on
any line other than the last produces no span. -/
theorem line_comment_spans_last_line :
    (∀ (t : Text) (s e : Nat), (s, e) ∈ reMatches (lineCommentMatchAt ['#']) t →
      ((e = t.length ∨ (e + 1 = t.length ∧ t[e]? = some '\n')) ∧
        ∀ j, s < j → j + 1 < t.length → t[j]? ≠ some '\n')) ∧
    (∀ (t : Text) (s e : Nat), (s, e) ∈ reMatches jsCommentMatchAt t →
      hasPrefixAt t s ['/', '/'] = true →
      ((e = t.length ∨ (e + 1 = t.length ∧ t[e]? = some '\n')) ∧
        ∀ j, s < j → j + 1 < t.length → t[j]? ≠ some '\n')) := by
  constructor
  · intro t s e hmem
    obtain ⟨q, hq⟩ := findIterAux_inv hmem
    obtain ⟨-, h2, h3⟩ := lineComment_shape (by decide) hq
    exact ⟨h2, h3⟩
  · intro t s e hmem hpre
    obtain ⟨q, hq⟩ := findIterAux_inv hmem
    exact jsComment_slash_shape hq hpre

/-- C10 witness: in `"#a\n"` the comment rule emits `(0, 2)`, which stops
just before the final newline, and the character after the span start is
not a newline. -/
theorem line_comment_spans_last_line_witness :
    ((0, 2) ∈ reMatches (lineCommentMatchAt ['#']) (strToL "#a\n")) ∧
      (2 = (strToL "#a\n").length ∨
        (2 + 1 = (strToL "#a\n").length ∧ (strToL "#a\n")[2]? = some '\n')) ∧
      (strToL "#a\n")[1]? ≠ some '\n' :=
  ⟨by decide,
    (line_comment_spans_last_line.1 (strToL "#a\n") 0 2 (by decide)).1,
    (line_comment_spans_last_line.1 (strToL "#a\n") 0 2 (by decide)).2 1
      (by decide) (by decide)⟩

theorem cacheOK_nil : cacheOK [] := by
  intro k m h
  simp [List.lookup] at h

theorem get_compiled_regex_ok {c : Cache} {m : Matcher} {key : String}
    (hc : cacheOK c) (ht : tableFor key = some m) :
    (get_compiled_regex c m key).1 = m ∧ cacheOK (get_compiled_regex c m key).2 := by
  simp only [get_compiled_regex]
  cases hl : c.lookup key with
  | some m' =>
    have hm := hc key m' hl
    rw [ht] at hm
    obtain rfl := Option.some.inj hm
    exact ⟨rfl, hc⟩
  | none =>
    refine ⟨rfl, fun k' m' hl' => ?_⟩
    simp only [List.lookup] at hl'
    cases hbk : k' == key with
    | true =>
      rw [hbk] at hl'
      obtain rfl := Option.some.inj hl'
      obtain rfl := eq_of_beq hbk
      exact ht
    | false =>
      rw [hbk] at hl'
      exact hc k' m' hl'

theorem highlight_python_c_ok {c : Cache} (hc : cacheOK c) (t : Text) :
    (highlight_python_c c t).1 = highlight_python t ∧
      cacheOK (highlight_python_c c t).2 := by
  obtain ⟨a1, b1⟩ := get_compiled_regex_ok hc
    (show tableFor "py_keywords" = some (kwMatchAt pyKeywords) from rfl)
  obtain ⟨a2, b2⟩ := get_compiled_regex_ok b1
    (show tableFor "py_builtins" = some (kwMatchAt pyBuiltins) from rfl)
  obtain ⟨a3, b3⟩ := get_compiled_regex_ok b2
    (show tableFor "py_comments" = some (lineCommentMatchAt ['#']) from rfl)
  obtain ⟨a4, b4⟩ := get_compiled_regex_ok b3
    (show tableFor "py_numbers" = some numberMatchAt from rfl)
  obtain ⟨a5, b5⟩ := get_compiled_regex_ok b4
    (show tableFor "py_functions" = some (defNameMatchAt (strToL "def")) from rfl)
  obtain ⟨a6, b6⟩ := get_compiled_regex_ok b5
    (show tableFor "py_classes" = some (defNameMatchAt (strToL "class")) from rfl)
  simp only [highlight_python_c, highlight_python, a1, a2, a3, a4, a5, a6]
  exact ⟨trivial, b6⟩

theorem highlight_javascript_c_ok {c : Cache} (hc : cacheOK c) (t : Text) :
    (highlight_javascript_c c t).1 = highlight_javascript t ∧
      cacheOK (highlight_javascript_c c t).2 := by
  obtain ⟨a1, b1⟩ := get_compiled_regex_ok hc
    (show tableFor "js_keywords" = some (kwMatchAt jsKeywords) from rfl)
  obtain ⟨a2, b2⟩ := get_compiled_regex_ok b1
    (show tableFor "js_strings" = some jsStringMatchAt from rfl)
  obtain ⟨a3, b3⟩ := get_compiled_regex_ok b2
    (show tableFor "js_comments" = some jsCommentMatchAt from rfl)
  obtain ⟨a4, b4⟩ := get_compiled_regex_ok b3
    (show tableFor "js_numbers" = some numberMatchAt from rfl)
  simp only [highlight_javascript_c, highlight_javascript, a1, a2, a3, a4]
  exact ⟨trivial, b4⟩

theorem highlight_c_like_c_ok {c : Cache} (hc : cacheOK c) (t : Text) :
    (highlight_c_like_c c t).1 = highlight_c_like t ∧
      cacheOK (highlight_c_like_c c t).2 := by
  obtain ⟨a1, b1⟩ := get_compiled_regex_ok hc
    (show tableFor "c_keywords" = some (kwMatchAt cKeywords) from rfl)
  obtain ⟨a2, b2⟩ := get_compiled_regex_ok b1
    (show tableFor "c_strings" = some cStringMatchAt from rfl)
  obtain ⟨a3, b3⟩ := get_compiled_regex_ok b2
    (show tableFor "c_comments" = some jsCommentMatchAt from rfl)
  obtain ⟨a4, b4⟩ := get_compiled_regex_ok b3
    (show tableFor "c_numbers" = some numberMatchAt from rfl)
  simp only [highlight_c_like_c, highlight_c_like, a1, a2, a3, a4]
  exact ⟨trivial, b4⟩

theorem highlight_html_c_ok {c : Cache} (hc : cacheOK c) (t : Text) :
    (highlight_html_c c t).1 = highlight_html t ∧
      cacheOK (highlight_html_c c t).2 := by
  obtain ⟨a1, b1⟩ := get_compiled_regex_ok hc
    (show tableFor "html_tags" = some htmlTagMatchAt from rfl)
  simp only [highlight_html_c, highlight_html, a1]
  exact ⟨trivial, b1⟩

theorem highlightSyntaxTagsC_ok (c : Cache) (old : List Span) (ext : String)
    (t : Text) (hc : cacheOK c) :
    (highlightSyntaxTagsC c old ext t).1 = highlightSyntaxTags old ext t ∧
      cacheOK (highlightSyntaxTagsC c old ext t).2 := by
  simp only [highlightSyntaxTagsC, highlightSyntaxTags, highlightSpans]
  by_cases h1 : ext = "py"
  · simp only [if_pos h1]
    obtain ⟨a, b⟩ := highlight_python_c_ok hc t
    exact ⟨by rw [a], b⟩
  · simp only [if_neg h1]
    by_cases h2 : ext ∈ ["js", "ts", "jsx", "tsx"]
    · simp only [if_pos h2]
      obtain ⟨a, b⟩ := highlight_javascript_c_ok hc t
      exact ⟨by rw [a], b⟩
    · simp only [if_neg h2]
      by_cases h3 : ext ∈ ["java", "c", "cpp", "cs", "h"]
      · simp only [if_pos h3]
        obtain ⟨a, b⟩ := highlight_c_like_c_ok hc t
        exact ⟨by rw [a], b⟩
      · simp only [if_neg h3]
        by_cases h4 : ext = "html"
        · simp only [if_pos h4]
          obtain ⟨a, b⟩ := highlight_html_c_ok hc t
          exact ⟨by rw [a], b⟩
        · simp only [if_neg h4]
          exact ⟨by rw [List.append_nil], hc⟩

/-- C9: highlighting is idempotent and deterministic: from any reachable
cache state, the produced span set equals the pure (cache-free) result, a
second call on unchanged input produces the identical span set, and a cold
(empty) cache gives the same spans as a warm one. -/
theorem highlight_idempotent_cache_independent (c : Cache) (old : List Span)
    (ext : String) (t : Text) (hc : cacheOK c) :
    (highlightSyntaxTagsC c old ext t).1 = highlightSyntaxTags old ext t ∧
      (highlightSyntaxTagsC (highlightSyntaxTagsC c old ext t).2 old ext t).1 =
        highlightSyntaxTags old ext t ∧
      (highlightSyntaxTagsC [] old ext t).1 = highlightSyntaxTags old ext t := by
  obtain ⟨a1, b1⟩ := highlightSyntaxTagsC_ok c old ext t hc
  obtain ⟨a2, -⟩ := highlightSyntaxTagsC_ok _ old ext t b1
  obtain ⟨a3, -⟩ := highlightSyntaxTagsC_ok [] old ext t cacheOK_nil
  exact ⟨a1, a2, a3⟩

/-- C9 witness: concrete double run over the py profile from the empty
cache. -/
theorem highlight_idempotent_cache_independent_witness :
    cacheOK [] ∧
      (highlightSyntaxTagsC [] [] "py" (strToL "x = 1")).1 =
        highlightSyntaxTags [] "py" (strToL "x = 1") ∧
      (highlightSyntaxTagsC (highlightSyntaxTagsC [] [] "py" (strToL "x = 1")).2
          [] "py" (strToL "x = 1")).1 =
        highlightSyntaxTags [] "py" (strToL "x = 1") :=
  ⟨cacheOK_nil,
    (highlight_idempotent_cache_independent [] [] "py" (strToL "x = 1") cacheOK_nil).1,
    (highlight_idempotent_cache_independent [] [] "py" (strToL "x = 1") cacheOK_nil).2.1⟩

theorem countIn_succ_hi {t : Text} {c : Char} {lo hi : Nat} (hlo : lo ≤ hi)
    (hin : hi < t.length) :
    countIn t c lo (hi + 1) =
      countIn t c lo hi + (if t.get ⟨hi, hin⟩ = c then 1 else 0) := by
  simp only [countIn]
  have h1 : hi + 1 - lo = (hi - lo) + 1 := by omega
  rw [h1, List.take_succ, List.count_append]
  have h2 : (t.drop lo)[hi - lo]? = some (t.get ⟨hi, hin⟩) := by
    rw [List.getElem?_drop]
    have h3 : lo + (hi - lo) = hi := by omega
    rw [h3]
    exact List.getElem?_eq_getElem hin
  rw [h2]
  by_cases hc : t.get ⟨hi, hin⟩ = c
  · simp [Option.toList, List.count_cons, hc]
  · simp [Option.toList, List.count_cons, hc]

theorem countIn_pred_lo {t : Text} {c : Char} {lo hi : Nat} (hlo : lo < hi)
    (hin : lo < t.length) :
    countIn t c lo hi =
      (if t.get ⟨lo, hin⟩ = c then 1 else 0) + countIn t c (lo + 1) hi := by
  simp only [countIn]
  rw [List.drop_eq_getElem_cons hin]
  have h1 : hi - lo = (hi - (lo + 1)) + 1 := by omega
  rw [h1, List.take_succ_cons, List.count_cons]
  simp only [List.get_eq_getElem]
  by_cases hc : t[lo] = c
  · simp [hc]
    omega
  · simp [hc]

theorem balSeg_step_up {t : Text} {oc cc : Char} {a iN : Nat} (hne : oc ≠ cc)
    (hle : a ≤ iN) (hin : iN < t.length) :
    (if t.get ⟨iN, hin⟩ = oc then balSeg t oc cc a iN + 1
      else if t.get ⟨iN, hin⟩ = cc then balSeg t oc cc a iN - 1
      else balSeg t oc cc a iN) = balSeg t oc cc a (iN + 1) := by
  have ho := @countIn_succ_hi t oc a iN hle hin
  have hc := @countIn_succ_hi t cc a iN hle hin
  simp only [balSeg]
  by_cases h1 : t.get ⟨iN, hin⟩ = oc
  · rw [if_pos h1]
    rw [if_pos h1] at ho
    rw [if_neg (h1 ▸ hne)] at hc
    rw [ho, hc]
    push_cast
    ring
  · rw [if_neg h1]
    rw [if_neg h1] at ho
    by_cases h2 : t.get ⟨iN, hin⟩ = cc
    · rw [if_pos h2]
      rw [if_pos h2] at hc
      rw [ho, hc]
      push_cast
      ring
    · rw [if_neg h2]
      rw [if_neg h2] at hc
      rw [ho, hc]
      push_cast
      ring

theorem balSeg_step_down {t : Text} {oc cc : Char} {a iN : Nat} (hne : oc ≠ cc)
    (hia : iN ≤ a) (hin : iN < t.length) :
    (if t.get ⟨iN, hin⟩ = oc then balSeg t oc cc (iN + 1) (a + 1) + 1
      else if t.get ⟨iN, hin⟩ = cc then balSeg t oc cc (iN + 1) (a + 1) - 1
      else balSeg t oc cc (iN + 1) (a + 1)) = balSeg t oc cc iN (a + 1) := by
  have ho := @countIn_pred_lo t oc iN (a + 1) (by omega) hin
  have hc := @countIn_pred_lo t cc iN (a + 1) (by omega) hin
  simp only [balSeg]
  by_cases h1 : t.get ⟨iN, hin⟩ = oc
  · rw [if_pos h1]
    rw [if_pos h1] at ho
    rw [if_neg (h1 ▸ hne)] at hc
    rw [ho, hc]
    push_cast
    ring
  · rw [if_neg h1]
    rw [if_neg h1] at ho
    by_cases h2 : t.get ⟨iN, hin⟩ = cc
    · rw [if_pos h2]
      rw [if_pos h2] at hc
      rw [ho, hc]
      push_cast
      ring
    · rw [if_neg h2]
      rw [if_neg h2] at hc
      rw [ho, hc]
      push_cast
      ring

theorem balSeg_refl (t : Text) (oc cc : Char) (i : Nat) :
    balSeg t oc cc i i = 0 := by
  simp [balSeg, countIn]

theorem scanF_loop {t : Text} {oc cc : Char} {a : Nat} (hne : oc ≠ cc) :
    ∀ (f iN : Nat) (cnt : Int), a ≤ iN → cnt = balSeg t oc cc a iN →
      t.length - iN < f →
      bracketScanA t (a : Int) oc cc 1 f (iN : Int) cnt =
        (List.range' iN (t.length - iN)).find?
          (fun j => balSeg t oc cc a (j + 1) == 0 && j != a) := by
  intro f
  induction f with
  | zero => intro iN cnt h1 h2 h3; omega
  | succ f ih =>
    intro iN cnt h1 h2 h3
    by_cases hin : iN < t.length
    · have hr : t.length - iN = (t.length - (iN + 1)) + 1 := by omega
      rw [hr, List.range'_succ]
      simp only [bracketScanA]
      rw [dif_pos (⟨Int.natCast_nonneg iN, by exact_mod_cast hin⟩ :
        0 ≤ (iN : Int) ∧ (iN : Int) < (t.length : Int))]
      simp only [Int.toNat_ofNat]
      subst h2
      rw [balSeg_step_up hne h1 hin]
      by_cases hrep : balSeg t oc cc a (iN + 1) = 0 ∧ iN ≠ a
      · rw [if_pos (⟨hrep.1, by exact_mod_cast hrep.2⟩ :
          balSeg t oc cc a (iN + 1) = 0 ∧ (iN : Int) ≠ (a : Int))]
        rw [List.find?_cons_of_pos _ (by
          simp only [Bool.and_eq_true, beq_iff_eq, bne_iff_ne]
          exact hrep)]
      · rw [if_neg (fun hcon => hrep ⟨hcon.1, by exact_mod_cast hcon.2⟩)]
        rw [List.find?_cons_of_neg _ (by
          simp only [Bool.and_eq_true, beq_iff_eq, bne_iff_ne]
          exact hrep)]
        have hcast : (iN : Int) + 1 = ((iN + 1 : Nat) : Int) := by push_cast; ring
        rw [hcast]
        exact ih (iN + 1) _ (by omega) rfl (by omega)
    · have hz : t.length - iN = 0 := by omega
      rw [hz]
      simp only [bracketScanA]
      rw [dif_neg (fun hcon => hin (by exact_mod_cast hcon.2))]
      rfl

theorem scanB_loop {t : Text} {oc cc : Char} {a : Nat} (hne : oc ≠ cc)
    (ha : a < t.length) :
    ∀ (f k : Nat) (cnt : Int), k ≤ a + 1 → cnt = balSeg t oc cc k (a + 1) →
      k < f →
      bracketScanA t (a : Int) oc cc (-1) f ((k : Int) - 1) cnt =
        ((List.range k).reverse).find?
          (fun j => balSeg t oc cc j (a + 1) == 0 && j != a) := by
  intro f
  induction f with
  | zero => intro k cnt h1 h2 h3; omega
  | succ f ih =>
    intro k cnt h1 h2 h3
    cases k with
    | zero =>
      simp only [bracketScanA]
      rw [dif_neg (by
        intro hcon
        have := hcon.1
        omega)]
      rfl
    | succ s =>
      have hcast : ((s + 1 : Nat) : Int) - 1 = ((s : Nat) : Int) := by push_cast; ring
      rw [hcast]
      have hsin : s < t.length := by omega
      simp only [bracketScanA]
      rw [dif_pos (⟨Int.natCast_nonneg s, by exact_mod_cast hsin⟩ :
        0 ≤ (s : Int) ∧ (s : Int) < (t.length : Int))]
      simp only [Int.toNat_ofNat]
      subst h2
      rw [balSeg_step_down hne (by omega : s ≤ a) hsin]
      have hlist : (List.range (s + 1)).reverse = s :: (List.range s).reverse := by
        rw [List.range_succ, List.reverse_append]
        rfl
      rw [hlist]
      by_cases hrep : balSeg t oc cc s (a + 1) = 0 ∧ s ≠ a
      · rw [if_pos (⟨hrep.1, by exact_mod_cast hrep.2⟩ :
          balSeg t oc cc s (a + 1) = 0 ∧ (s : Int) ≠ (a : Int))]
        rw [List.find?_cons_of_pos _ (by
          simp only [Bool.and_eq_true, beq_iff_eq, bne_iff_ne]
          exact hrep)]
      · rw [if_neg (fun hcon => hrep ⟨hcon.1, by exact_mod_cast hcon.2⟩)]
        rw [List.find?_cons_of_neg _ (by
          simp only [Bool.and_eq_true, beq_iff_eq, bne_iff_ne]
          exact hrep)]
        have hc2 : (s : Int) + (-1) = ((s : Nat) : Int) - 1 := by ring
        rw [hc2]
        exact ih s _ (by omega) rfl (by omega)

/-- C2: the bracket matcher implements balanced counting.  Scanning
forward (direction `+1`) from anchor `a`, the reported offset is the first
position `j ≠ a` at which the running balance (anchor occurrences minus
counterpart occurrences over the scanned interval) returns to zero, and no
match is reported when the scan exhausts the buffer; symmetrically for the
backward scan (direction `-1`).  In particular `matchAt("(", 1)` reports no
match, and `matchAt("()", 1)` reports the pair `(0, 1)` from the
before-cursor anchor. -/
theorem bracket_matcher_balanced_counting :
    (∀ (t : Text) (oc cc : Char) (a : Nat), oc ≠ cc → a < t.length →
      find_matching_bracket t a oc cc 1 =
        (List.range' a (t.length - a)).find?
          (fun j => balSeg t oc cc a (j + 1) == 0 && j != a)) ∧
    (∀ (t : Text) (oc cc : Char) (a : Nat), oc ≠ cc → a < t.length →
      find_matching_bracket t a oc cc (-1) =
        ((List.range (a + 1)).reverse).find?
          (fun j => balSeg t oc cc j (a + 1) == 0 && j != a)) ∧
    highlight_matching_bracket txtParen 1 = (none, none) ∧
    (highlight_matching_bracket txtParenPair 1).1 = some (0, 1) := by
  refine ⟨?_, ?_, by decide, by decide⟩
  · intro t oc cc a hne ha
    show bracketScanA t (a : Int) oc cc 1 (t.length + 1) (a : Int) 0 = _
    exact @scanF_loop t oc cc a hne (t.length + 1) a 0 (Nat.le_refl a)
      (balSeg_refl t oc cc a).symm (by omega)
  · intro t oc cc a hne ha
    have hc : ((a : Nat) : Int) = ((a + 1 : Nat) : Int) - 1 := by push_cast; ring
    show bracketScanA t (a : Int) oc cc (-1) (t.length + 1) (a : Int) 0 = _
    nth_rewrite 2 [hc]
    exact @scanB_loop t oc cc a hne ha (t.length + 1) (a + 1) 0 (Nat.le_refl _)
      (balSeg_refl t oc cc (a + 1)).symm (by omega)

/-- C2 witness: the forward characterization instantiated on `"()"` with
the `'('` anchor at offset 0. -/
theorem bracket_matcher_balanced_counting_witness :
    ('(' ≠ ')') ∧ 0 < txtParenPair.length ∧
      find_matching_bracket txtParenPair 0 '(' ')' 1 =
        (List.range' 0 (txtParenPair.length - 0)).find?
          (fun j => balSeg txtParenPair '(' ')' 0 (j + 1) == 0 && j != 0) :=
  ⟨by decide, by decide,
    bracket_matcher_balanced_counting.1 txtParenPair '(' ')' 0 (by decide) (by decide)⟩

theorem hasPrefixAt_region_no_newline {t : Text} {i : Nat} {s : List Char}
    (h : hasPrefixAt t i s = true) (hnl : '\n' ∉ s) :
    ∀ j, i ≤ j → j < i + s.length → t[j]? ≠ some '\n' := by
  intro j hj1 hj2 hcon
  have hk : j - i < s.length := by omega
  have hg := hasPrefixAt_getElem h hk
  rw [(by omega : i + (j - i) = j)] at hg
  rw [hg] at hcon
  exact hnl (List.getElem?_mem hcon)

theorem lazyFindSub_no_newline {t : Text} {sub : List Char} :
    ∀ {f i q}, lazyFindSubA false t sub f i = some q →
      ∀ j, i ≤ j → j < q → t[j]? ≠ some '\n' := by
  intro f
  induction f with
  | zero => intro i q h; simp [lazyFindSubA] at h
  | succ f ih =>
    intro i q h j hj1 hj2
    simp only [lazyFindSubA] at h
    by_cases hp : hasPrefixAt t i sub = true
    · rw [if_pos hp] at h
      obtain rfl := Option.some.inj h
      exact absurd hj2 (by omega)
    · rw [if_neg hp] at h
      cases hg : t[i]? with
      | none => rw [hg] at h; cases h
      | some c =>
        simp only [hg] at h
        by_cases hc : (false || c != '\n') = true
        · rw [if_pos hc] at h
          rcases Nat.eq_or_lt_of_le hj1 with rfl | hlt
          · rw [hg]
            intro hcon
            obtain rfl := Option.some.inj hcon
            simp at hc
          · exact ih h j hlt hj2
        · rw [if_neg hc] at h; cases h

theorem lineComment_start {marker : List Char} {t : Text} {p s e : Nat}
    (h : lineCommentMatchAt marker t p = some (s, e)) :
    s = p ∧ hasPrefixAt t p marker = true := by
  simp only [lineCommentMatchAt] at h
  by_cases h1 : hasPrefixAt t p marker = true
  · rw [if_pos h1] at h
    cases hf : dollarScan t (p + marker.length) with
    | none => simp [hf] at h
    | some ee =>
      simp only [hf, Option.map_some', Option.some.injEq, Prod.mk.injEq] at h
      exact ⟨h.1.symm, h1⟩
  · rw [if_neg h1] at h; cases h

/-- Every span the backtick alternative of the js/ts string rule emits
contains no newline: the rule is compiled without DOTALL, so a backtick
string containing a newline never matches. -/
theorem jsString_backtick_no_newline {t : Text} {p s e : Nat}
    (h : jsStringMatchAt t p = some (s, e))
    (hbt : t[s]? = some (Char.ofNat 96)) :
    ∀ j, s ≤ j → j < e → t[j]? ≠ some '\n' := by
  simp only [jsStringMatchAt] at h
  by_cases c1 : (t[p]? == some (Char.ofNat 96)) = true
  · rw [if_pos c1] at h
    simp only [Option.map_eq_some', Prod.mk.injEq] at h
    obtain ⟨qq, hfind, rfl, rfl⟩ := h
    intro j hj1 hj2
    obtain ⟨hq1, hq2⟩ := lazyFindSubA_some hfind
    have hL : ([Char.ofNat 96] : List Char).length = 1 := rfl
    by_cases hA : j = p
    · subst hA
      rw [eq_of_beq c1]
      decide
    · by_cases hB : j < qq
      · exact lazyFindSub_no_newline hfind j (by omega) hB
      · exact hasPrefixAt_region_no_newline hq2 (by decide) j (by omega) (by omega)
  · rw [if_neg c1] at h
    by_cases c2 : (t[p]? == some '"') = true
    · rw [if_pos c2] at h
      simp only [Option.map_eq_some', Prod.mk.injEq] at h
      obtain ⟨ee, -, rfl, rfl⟩ := h
      exfalso
      apply c1
      rw [hbt]
      decide
    · rw [if_neg c2] at h
      by_cases c3 : (t[p]? == some '\'') = true
      · rw [if_pos c3] at h
        simp only [Option.map_eq_some', Prod.mk.injEq] at h
        obtain ⟨ee, -, rfl, rfl⟩ := h
        exfalso
        apply c1
        rw [hbt]
        decide
      · rw [if_neg c3] at h; cases h

/-- Every span the block alternative of the js/ts and c-like comment rule
emits contains no newline: the rule is compiled without DOTALL, so a block
comment containing a newline never matches. -/
theorem jsComment_block_no_newline {t : Text} {p s e : Nat}
    (h : jsCommentMatchAt t p = some (s, e))
    (hpre : hasPrefixAt t s ['/', '*'] = true) :
    ∀ j, s ≤ j → j < e → t[j]? ≠ some '\n' := by
  simp only [jsCommentMatchAt] at h
  cases hline : lineCommentMatchAt ['/', '/'] t p with
  | some r =>
    simp only [hline] at h
    obtain rfl := Option.some.inj h
    obtain ⟨rfl, hp2⟩ := lineComment_start hline
    have c1 := @hasPrefixAt_getElem t s ['/', '/'] hp2 1 (by decide)
    have c2 := @hasPrefixAt_getElem t s ['/', '*'] hpre 1 (by decide)
    rw [c2] at c1
    exact absurd c1 (by decide)
  | none =>
    simp only [hline, blockMatchAt] at h
    by_cases hb : hasPrefixAt t p ['/', '*'] = true
    · rw [if_pos hb] at h
      simp only [Option.map_eq_some', Prod.mk.injEq] at h
      obtain ⟨qq, hfind, rfl, rfl⟩ := h
      intro j hj1 hj2
      obtain ⟨hq1, hq2⟩ := lazyFindSubA_some hfind
      have hL1 : (['/', '*'] : List Char).length = 2 := rfl
      have hL2 : (['*', '/'] : List Char).length = 2 := rfl
      by_cases hA : j < p + 2
      · exact hasPrefixAt_region_no_newline hb (by decide) j hj1 (by omega)
      · by_cases hB : j < qq
        · exact lazyFindSub_no_newline hfind j (by omega) hB
        · exact hasPrefixAt_region_no_newline hq2 (by decide) j (by omega) (by omega)
    · rw [if_neg hb] at h; cases h

/-- C4 amended: a closed multi-line construct produces one span covering
the whole construct exactly in the profiles whose patterns carry DOTALL.
For every text and position: a closed py triple-quoted string (either
quote style) makes the py string rule emit the single span from its
opening to its closing quotes, and a closed html comment makes the html
comment rule emit the single span from `<!--` to `-->`, newlines inside
notwithstanding; whereas every span the js/ts backtick-string alternative
or the js/ts / c-like block-comment alternative emits contains no newline
at all (no DOTALL), so such constructs containing newlines produce no
span — as the four concrete multi-line inputs illustrate. -/
theorem multiline_one_span_amended :
    (∀ (t : Text) (p q : Nat), hasPrefixAt t p ['"', '"', '"'] = true →
      lazyFindSub true t ['"', '"', '"'] (p + 3) = some q →
      pyStringMatchAt t p = some (p, q + 3)) ∧
    (∀ (t : Text) (p q : Nat), hasPrefixAt t p ['\'', '\'', '\''] = true →
      lazyFindSub true t ['\'', '\'', '\''] (p + 3) = some q →
      pyStringMatchAt t p = some (p, q + 3)) ∧
    (∀ (t : Text) (p q : Nat), hasPrefixAt t p (strToL "<!--") = true →
      lazyFindSub true t (strToL "-->") (p + 4) = some q →
      blockMatchAt true (strToL "<!--") (strToL "-->") t p = some (p, q + 3)) ∧
    (∀ (t : Text) (s e : Nat), (s, e) ∈ reMatches jsStringMatchAt t →
      t[s]? = some (Char.ofNat 96) →
      ∀ j, s ≤ j → j < e → t[j]? ≠ some '\n') ∧
    (∀ (t : Text) (s e : Nat), (s, e) ∈ reMatches jsCommentMatchAt t →
      hasPrefixAt t s ['/', '*'] = true →
      ∀ j, s ≤ j → j < e → t[j]? ≠ some '\n') ∧
    highlight_python txtPyTripleNl = [Span.mk .string 0 9] ∧
    highlight_html txtHtmlCommentNl = [Span.mk .comment 0 10] ∧
    highlight_javascript txtBacktickNl = [] ∧
    highlight_c_like txtBlockNl = [] := by
  refine ⟨?_, ?_, ?_, ?_, ?_, by decide, by decide, by decide, by decide⟩
  · intro t p q h1 h2
    simp only [pyStringMatchAt, if_pos h1, h2]
  · intro t p q h1 h2
    have h0 := @hasPrefixAt_getElem t p ['\'', '\'', '\''] h1 0 (by decide)
    have hdd : ¬(hasPrefixAt t p ['"', '"', '"'] = true) := by
      intro hc
      have hx := @hasPrefixAt_getElem t p ['"', '"', '"'] hc 0 (by decide)
      rw [hx] at h0
      exact absurd h0 (by decide)
    simp only [pyStringMatchAt, if_neg hdd, if_pos h1, h2]
  · intro t p q h1 h2
    have hL : (strToL "<!--").length = 4 := rfl
    have hL2 : (strToL "-->").length = 3 := rfl
    simp only [blockMatchAt, if_pos h1, hL, h2, Option.map_some', hL2]
  · intro t s e hmem hbt
    obtain ⟨p', hp'⟩ := findIterAux_inv hmem
    exact jsString_backtick_no_newline hp' hbt
  · intro t s e hmem hpre
    obtain ⟨p', hp'⟩ := findIterAux_inv hmem
    exact jsComment_block_no_newline hp' hpre

/-- C4 amended witness: the closed multi-line triple-quoted string
`"""a\nb"""` makes the py string rule emit the single covering span
`(0, 9)`. -/
theorem multiline_one_span_amended_witness :
    hasPrefixAt txtPyTripleNl 0 ['"', '"', '"'] = true ∧
      lazyFindSub true txtPyTripleNl ['"', '"', '"'] 3 = some 6 ∧
      pyStringMatchAt txtPyTripleNl 0 = some (0, 9) :=
  ⟨by decide, by decide,
    multiline_one_span_amended.1 txtPyTripleNl 0 6 (by decide) (by decide)⟩

end CodeForge
